import Mathlib

/-!
# CHIP-8 interpreter (`src/chip.c`): shallow embedding and verified properties

The C structure `struct chip8` becomes the Lean structure `chip8`.  Arrays are
functions from indices to values; every array access of the C code is guarded
by the bound of the C array, and an access outside the array (undefined
behaviour in C) makes the embedded operation return `none`.  Machine integers
are natural numbers, truncated explicitly (`% 256` for `uint8_t`, `% 0x10000`
for `uint16_t`) wherever the C code stores into a narrower type.
-/

set_option linter.unusedVariables false

/-! ## Data model -/

/-- Array store `a[i] = v` on an array seen as a function of its index. -/
def upd {α : Type} (a : Nat → α) (i : Nat) (v : α) : Nat → α :=
  fun k => if k = i then v else a k

/-- The machine state, `struct chip8` of `chip.c`.  `memory` has 0x1000 bytes,
`V` 16 bytes, `stack` 16 words, `display` 64 * 32 bytes, `keys` 16 flags. -/
structure chip8 where
  memory : Nat → Nat
  V : Nat → Nat
  I : Nat
  dt : Nat
  st : Nat
  stack : Nat → Nat
  sp : Nat
  display : Nat → Nat
  keys : Nat → Bool
  pc : Nat
  beep : Bool
  draw : Bool
  halt_reg : Nat

/-- The values of a state fit the C types of the fields of `struct chip8`. -/
structure chip8.WF (chip : chip8) : Prop where
  memory_lt : ∀ a, chip.memory a < 256
  V_lt : ∀ r, chip.V r < 256
  I_lt : chip.I < 0x10000
  dt_lt : chip.dt < 256
  st_lt : chip.st < 256
  stack_lt : ∀ k, chip.stack k < 0x10000
  sp_lt : chip.sp < 256
  display_lt : ∀ p, chip.display p < 256
  pc_lt : chip.pc < 0x10000
  halt_reg_lt : chip.halt_reg < 256

/-- The font table `chip8_font`: 16 glyphs of 5 bytes. -/
def chip8_font : List Nat := [
  0xF0, 0x90, 0x90, 0x90, 0xF0,
  0x20, 0x60, 0x20, 0x20, 0x70,
  0xF0, 0x10, 0xF0, 0x80, 0xF0,
  0xF0, 0x10, 0xF0, 0x10, 0xF0,
  0x90, 0x90, 0xF0, 0x10, 0x10,
  0xF0, 0x80, 0xF0, 0x10, 0xF0,
  0xF0, 0x80, 0xF0, 0x90, 0xF0,
  0xF0, 0x10, 0x20, 0x40, 0x40,
  0xF0, 0x90, 0xF0, 0x90, 0xF0,
  0xF0, 0x90, 0xF0, 0x10, 0xF0,
  0xF0, 0x90, 0xF0, 0x90, 0x90,
  0xE0, 0x90, 0xE0, 0x90, 0xE0,
  0xF0, 0x80, 0x80, 0x80, 0xF0,
  0xE0, 0x90, 0x90, 0x90, 0xE0,
  0xF0, 0x80, 0xF0, 0x80, 0xF0,
  0xF0, 0x80, 0xF0, 0x80, 0x80]

/-! ## Initialisation and timers -/

/-- The function `chip8_init`.  `chip` is the structure as `main` allocated it
(`malloc`, so the fields that `chip8_init` does not assign keep whatever they
held); `new_memory` and `new_display` are the contents of the two blocks
returned by `malloc` inside `chip8_init`, which the function does not clear.
`rom_data` is the image, `size_of_rom` its length.  The first `memcpy` writes
`size_of_rom` bytes from the load address on: it leaves the 0x1000-byte block
when the image is too long, and the result is then `none`. -/
def chip8_init (chip : chip8) (new_memory new_display : Nat → Nat)
    (rom_data : List Nat) (eti660 : Bool) : Option chip8 :=
  let pc := if eti660 then 0x660 else 0x200
  let size_of_rom := rom_data.length
  if pc + size_of_rom ≤ 0x1000 then
    let memory1 : Nat → Nat := fun a =>
      if pc ≤ a ∧ a < pc + size_of_rom then rom_data.getD (a - pc) 0 else new_memory a
    let memory2 : Nat → Nat := fun a =>
      if a < chip8_font.length then chip8_font.getD a 0 else memory1 a
    some { chip with
      memory := memory2, display := new_display, pc := pc, sp := 0xF,
      I := 0, dt := 0, st := 0 }
  else none

/-- The function `chip8_update_timers`. -/
def chip8_update_timers (chip : chip8) : chip8 :=
  let chip := if chip.dt ≠ 0 then { chip with dt := (chip.dt - 1) % 256 } else chip
  if chip.st ≠ 0 then
    let chip := { chip with st := (chip.st - 1) % 256 }
    if chip.st = 0 then { chip with beep := true } else chip
  else chip

/-! ## The execution engine -/

/-- One pass of the inner loop of the draw instruction (`case 0xD`): the pixel
of column offset `j` in sprite row `i`, whose byte is `byte`.  `Vx` and `Vy`
are the macros `chip->V[x]` and `chip->V[y]`, read from the current state. -/
def draw_pixel (x y i byte : Nat) (chip : chip8) (j : Nat) : chip8 :=
  let pos := ((chip.V x + j) % 64) + (((chip.V y + i) % 32) * 64)
  let bit := (byte >>> (7 - j)) &&& 1
  let chip :=
    if bit ≠ 0 ∧ chip.display pos ≠ 0 then { chip with V := upd chip.V 0xF 1 } else chip
  { chip with display := upd chip.display pos ((chip.display pos ^^^ bit) % 256) }

/-- One pass of the outer loop of the draw instruction: sprite row `i`, read
from `memory[I + i]`. -/
def draw_row (x y : Nat) (chip : chip8) (i : Nat) : Option chip8 :=
  if chip.I + i < 0x1000 then
    some ((List.range 8).foldl (draw_pixel x y i (chip.memory (chip.I + i))) chip)
  else none

/-- The body of `case 0xD`. -/
def draw_sprite (x y n : Nat) (chip : chip8) : Option chip8 :=
  ((List.range n).foldlM (draw_row x y) { chip with V := upd chip.V 0xF 0 }).map
    fun c => { c with draw := true }

/-- One pass of the loop of `case 0x55`: `memory[I + i] = V[i]`. -/
def store_reg (chip : chip8) (i : Nat) : Option chip8 :=
  if chip.I + i < 0x1000 then
    some { chip with memory := upd chip.memory (chip.I + i) (chip.V i) }
  else none

/-- One pass of the loop of `case 0x65`: `V[i] = memory[I + i]`. -/
def load_reg (chip : chip8) (i : Nat) : Option chip8 :=
  if chip.I + i < 0x1000 then
    some { chip with V := upd chip.V i (chip.memory (chip.I + i)) }
  else none

/-- Subtraction of two bytes stored into a `uint8_t`. -/
def sub8 (a b : Nat) : Nat := (((a : Int) - (b : Int)) % 256).toNat

/-- The family `0x8` of `chip8_execute_next_instruction` (`switch (n)`). -/
def alu (n x y : Nat) (chip : chip8) : chip8 :=
  match n with
  | 0x0 => { chip with V := upd chip.V x (chip.V y) }
  | 0x1 => { chip with V := upd chip.V x (chip.V x ||| chip.V y) }
  | 0x2 => { chip with V := upd chip.V x (chip.V x &&& chip.V y) }
  | 0x3 => { chip with V := upd chip.V x (chip.V x ^^^ chip.V y) }
  | 0x4 =>
    let chip := { chip with V := upd chip.V 0xF (((chip.V x + chip.V y) >>> 8) % 256) }
    { chip with V := upd chip.V x ((chip.V x + chip.V y) % 256) }
  | 0x5 =>
    let chip := { chip with V := upd chip.V 0xF (if chip.V x > chip.V y then 1 else 0) }
    { chip with V := upd chip.V x (sub8 (chip.V x) (chip.V y)) }
  | 0x6 =>
    let chip := { chip with V := upd chip.V 0xF (chip.V x &&& 1) }
    { chip with V := upd chip.V x (chip.V x >>> 1) }
  | 0x7 =>
    let chip := { chip with V := upd chip.V 0xF (if chip.V y > chip.V x then 1 else 0) }
    { chip with V := upd chip.V x (sub8 (chip.V y) (chip.V x)) }
  | 0xE =>
    let chip := { chip with V := upd chip.V 0xF ((chip.V x >>> 7) % 256) }
    { chip with V := upd chip.V x ((chip.V x <<< 1) % 256) }
  | _ => chip

/-- The family `0xF` of `chip8_execute_next_instruction` (`switch (nn)`). -/
def misc (nn x : Nat) (chip : chip8) : Option chip8 :=
  match nn with
  | 0x07 => some { chip with V := upd chip.V x chip.dt }
  | 0x0A => some { chip with halt_reg := x }
  | 0x15 => some { chip with dt := chip.V x }
  | 0x18 => some { chip with st := chip.V x }
  | 0x1E => some { chip with I := (chip.I + chip.V x) % 0x10000 }
  | 0x29 => some { chip with I := (chip.V x * 5) % 0x10000 }
  | 0x33 =>
    if chip.I + 2 < 0x1000 then
      let chip := { chip with memory := upd chip.memory (chip.I + 0) ((chip.V x / 100) % 256) }
      let chip := { chip with memory := upd chip.memory (chip.I + 1) ((chip.V x / 10) % 10) }
      some { chip with memory := upd chip.memory (chip.I + 2) (chip.V x % 10) }
    else none
  | 0x55 => (List.range (x + 1)).foldlM store_reg chip
  | 0x65 => (List.range (x + 1)).foldlM load_reg chip
  | _ => some chip

/-- The `switch (op >> 12)` of `chip8_execute_next_instruction`, on the decoded
fields of the opcode; `chip` is the state after the fetch and `rnd` is the
value that `rand()` returns if the instruction calls it. -/
def dispatch (fam nnn nn n x y : Nat) (rnd : Nat) (chip : chip8) : Option chip8 :=
  match fam with
  | 0x0 =>
    match nnn with
    | 0x0E0 =>
      some { chip with
        display := fun p => if p < 64 * 32 then 0 else chip.display p, draw := true }
    | 0x0EE =>
      let chip := { chip with sp := (chip.sp + 1) % 256 }
      if chip.sp < 16 then some { chip with pc := chip.stack chip.sp } else none
    | _ => some chip
  | 0x1 => some { chip with pc := nnn }
  | 0x2 =>
    if chip.sp < 16 then
      some { chip with
        stack := upd chip.stack chip.sp chip.pc, sp := (chip.sp + 255) % 256, pc := nnn }
    else none
  | 0x3 => some (if chip.V x = nn then { chip with pc := (chip.pc + 2) % 0x10000 } else chip)
  | 0x4 => some (if chip.V x ≠ nn then { chip with pc := (chip.pc + 2) % 0x10000 } else chip)
  | 0x5 =>
    some (if chip.V x = chip.V y ∧ n = 0 then { chip with pc := (chip.pc + 2) % 0x10000 }
      else chip)
  | 0x6 => some { chip with V := upd chip.V x nn }
  | 0x7 => some { chip with V := upd chip.V x ((chip.V x + nn) % 256) }
  | 0x8 => some (alu n x y chip)
  | 0x9 =>
    some (if chip.V x ≠ chip.V y ∧ n = 0 then { chip with pc := (chip.pc + 2) % 0x10000 }
      else chip)
  | 0xA => some { chip with I := nnn }
  | 0xB => some { chip with pc := (chip.V 0 + nnn) % 0x10000 }
  | 0xC => some { chip with V := upd chip.V x ((rnd &&& nn) % 256) }
  | 0xD => draw_sprite x y n chip
  | 0xE =>
    match nn with
    | 0x9E =>
      if chip.V x < 16 then
        some (if chip.keys (chip.V x) then { chip with pc := (chip.pc + 2) % 0x10000 } else chip)
      else none
    | 0xA1 =>
      if chip.V x < 16 then
        some (if ¬ chip.keys (chip.V x) then { chip with pc := (chip.pc + 2) % 0x10000 }
          else chip)
      else none
    | _ => some chip
  | 0xF => misc nn x chip
  | _ => some chip

/-- The function `chip8_execute_next_instruction`: nothing while `halt_reg` is
non-zero; otherwise the two bytes at `pc` and `pc + 1` are fetched, `pc`
advances by 2, the opcode is decoded and dispatched.  The two `pc++` of the
fetch expression are taken from left to right, so the byte at `pc` is the high
byte of the opcode.  A fetch outside the 0x1000-byte memory gives `none`.
`rnd` is the value returned by `rand()`. -/
def chip8_execute_next_instruction (rnd : Nat) (chip : chip8) : Option chip8 :=
  if chip.halt_reg ≠ 0 then some chip
  else if chip.pc < 0x1000 ∧ (chip.pc + 1) % 0x10000 < 0x1000 then
    let op := ((chip.memory chip.pc <<< 8) ||| chip.memory ((chip.pc + 1) % 0x10000)) % 0x10000
    let chip := { chip with pc := (chip.pc + 2) % 0x10000 }
    let nnn := op &&& 0x0FFF
    let nn := op &&& 0x00FF
    let n := op &&& 0x000F
    let x := (op &&& 0x0F00) >>> 8
    let y := (op &&& 0x00F0) >>> 4
    dispatch (op >>> 12) nnn nn n x y rnd chip
  else none

/-- The keyboard case of the event loop of `main` (`SDL_KEYDOWN`, `SDL_KEYUP`).
`i` is the index at which the loop finds the key in `keypad_layout` (a key
that is not in the layout, no index below 16, changes nothing); `is_down` is
`event.type == SDL_KEYDOWN`.  The store `chip->V[chip->halt_reg]` leaves the
register file when `halt_reg` is 16 or more, and the result is then `none`. -/
def key_event (i : Nat) (is_down : Bool) (chip : chip8) : Option chip8 :=
  if i < 16 then
    let chip := { chip with keys := upd chip.keys i is_down }
    if is_down = true ∧ chip.halt_reg ≠ 0 then
      if chip.halt_reg < 16 then
        some { chip with V := upd chip.V chip.halt_reg i, halt_reg := 0 }
      else none
    else some chip
  else some chip

/-- Consecutive calls of `chip8_execute_next_instruction`, one for each element
of `rnds` (the values that `rand()` would return). -/
def chip8_run (rnds : List Nat) (chip : chip8) : Option chip8 :=
  rnds.foldlM (fun c rnd => chip8_execute_next_instruction rnd c) chip

/-- The part of `main` that reads the image and initialises the machine:
`size_of_file = min(ftell(file), 0x1000)`, `fread` of that many bytes, then
`chip8_init(chip, rom, size_of_file, eti660)`. -/
def main_load (chip : chip8) (new_memory new_display : Nat → Nat) (file : List Nat)
    (eti660 : Bool) : Option chip8 :=
  let size_of_file := min file.length 0x1000
  chip8_init chip new_memory new_display (file.take size_of_file) eti660

/-! ## Vocabulary of the statements -/

/-- Index in the display buffer of the pixel of sprite row `i`, column offset
`j`, for a sprite drawn at `(a, b)`. -/
def pixel_pos (a b i j : Nat) : Nat := (a + j) % 64 + ((b + i) % 32) * 64

/-- Bit `7 - j` of a sprite byte. -/
def sprite_bit (byte j : Nat) : Nat := (byte >>> (7 - j)) &&& 1

/-- The 16-bit opcodes that match no row of the dispatch table of the
specification: `0nnn` other than `00E0` and `00EE`; `5xyn` and `9xyn` with
`n` not 0; `8xyn` with `n` among 8, 9, A, B, C, D, F; `Exnn` with `nn` not
9E or A1; `Fxnn` with `nn` not among 07, 0A, 15, 18, 1E, 29, 33, 55, 65. -/
def is_undefined (op : Nat) : Prop :=
  (op / 0x1000 = 0x0 ∧ op % 0x1000 ≠ 0x0E0 ∧ op % 0x1000 ≠ 0x0EE) ∨
  ((op / 0x1000 = 0x5 ∨ op / 0x1000 = 0x9) ∧ op % 0x10 ≠ 0) ∨
  (op / 0x1000 = 0x8 ∧ (op % 0x10 = 0x8 ∨ op % 0x10 = 0x9 ∨ op % 0x10 = 0xA ∨
    op % 0x10 = 0xB ∨ op % 0x10 = 0xC ∨ op % 0x10 = 0xD ∨ op % 0x10 = 0xF)) ∨
  (op / 0x1000 = 0xE ∧ op % 0x100 ≠ 0x9E ∧ op % 0x100 ≠ 0xA1) ∨
  (op / 0x1000 = 0xF ∧ op % 0x100 ≠ 0x07 ∧ op % 0x100 ≠ 0x0A ∧ op % 0x100 ≠ 0x15 ∧
    op % 0x100 ≠ 0x18 ∧ op % 0x100 ≠ 0x1E ∧ op % 0x100 ≠ 0x29 ∧ op % 0x100 ≠ 0x33 ∧
    op % 0x100 ≠ 0x55 ∧ op % 0x100 ≠ 0x65)

instance : DecidablePred is_undefined := fun op => by
  unfold is_undefined
  infer_instance

/-! ## Example machines -/

/-- A machine that is not waiting, with clear registers, timers, keys, stack
and display, an empty stack (`sp = 15`), `pc = 0x200`, and `bytes` in memory
from address 0x200 on (0 elsewhere). -/
def machine_with (bytes : List Nat) : chip8 where
  memory := fun a => if 0x200 ≤ a then bytes.getD (a - 0x200) 0 else 0
  V := fun _ => 0
  I := 0
  dt := 0
  st := 0
  stack := fun _ => 0
  sp := 0xF
  display := fun _ => 0
  keys := fun _ => false
  pc := 0x200
  beep := false
  draw := false
  halt_reg := 0

/-- `V1 = 200`, `V2 = 100`, next opcode `8124` (add `V2` to `V1`). -/
def example_add : chip8 :=
  { machine_with [0x81, 0x24] with V := upd (upd (fun _ => 0) 1 200) 2 100 }

/-- `V1 = 3`, `V2 = 5`, next opcode `8125` (subtract `V2` from `V1`). -/
def example_sub : chip8 :=
  { machine_with [0x81, 0x25] with V := upd (upd (fun _ => 0) 1 3) 2 5 }

/-- `V1 = 0x85`, `V2 = 0x42`, next opcode `8126` (shift right). -/
def example_shr : chip8 :=
  { machine_with [0x81, 0x26] with V := upd (upd (fun _ => 0) 1 0x85) 2 0x42 }

/-- `V1 = 0x85`, `V2 = 0x42`, next opcode `812E` (shift left). -/
def example_shl : chip8 :=
  { machine_with [0x81, 0x2E] with V := upd (upd (fun _ => 0) 1 0x85) 2 0x42 }

/-- A full stack but for one entry (`sp = 0`), next opcode `2204` (call 0x204),
and `00EE` (return) at 0x204. -/
def example_call : chip8 :=
  { machine_with [0x22, 0x04, 0x00, 0x00, 0x00, 0xEE] with sp := 0 }

/-- `VF = 0`, `V0 = 0`, `I = 0x204`, a blank display, the opcode `DF01` twice
(draw one row at `(VF, V0)`), and the sprite byte `0xFF` at 0x204. -/
def example_draw_vf : chip8 :=
  { machine_with [0xDF, 0x01, 0xDF, 0x01, 0xFF] with I := 0x204 }

/-- `V1 = 10`, `V2 = 5`, `I = 0x204`, a blank display, the opcode `D121` twice
(draw one row at `(V1, V2)`), and the sprite byte `0xFF` at 0x204. -/
def example_double_draw : chip8 :=
  { machine_with [0xD1, 0x21, 0xD1, 0x21, 0xFF] with
    V := upd (upd (fun _ => 0) 1 10) 2 5, I := 0x204 }

/-- Next opcode `F00A` (wait for a key, destination `V0`), followed by `6005`
(`V0 = 5`). -/
def example_wait_v0 : chip8 := machine_with [0xF0, 0x0A, 0x60, 0x05]

/-- The sound timer at 1, the delay timer at 7, no beep requested. -/
def example_timers : chip8 :=
  { machine_with [] with dt := 7, st := 1 }

/-- The program `600A 6105 A000 D015`: `V0 = 10`, `V1 = 5`, `I = 0`, draw five
rows at `(V0, V1)`. -/
def glyph_program : List Nat := [0x60, 0x0A, 0x61, 0x05, 0xA0, 0x00, 0xD0, 0x15]

/-- A block returned by `malloc` whose first byte is 1. -/
def dirty_block : Nat → Nat := fun p => if p = 0 then 1 else 0

/-- `V1 = 10`, `V2 = 5`, `I = 0x202`, a blank display, next opcode `D121`
(draw one row at `(V1, V2)`), and the sprite byte `0xA5` at 0x202. -/
def example_draw : chip8 :=
  { machine_with [0xD1, 0x21, 0xA5] with V := upd (upd (fun _ => 0) 1 10) 2 5, I := 0x202 }

/-- Waiting for a key with destination `V3` (`halt_reg = 3`). -/
def example_waiting : chip8 :=
  { machine_with [] with halt_reg := 3 }

/-- Every pixel set, next opcode `00E0` (clear the screen). -/
def example_clear : chip8 :=
  { machine_with [0x00, 0xE0] with display := fun _ => 1 }

/-- Sixteen nested calls: at `0x200 + 2 * k` the opcode `2nnn` with
`nnn = 0x200 + 2 * k + 2`, for `k` in 0..15. -/
def sixteen_calls : List Nat :=
  [0x22, 0x02, 0x22, 0x04, 0x22, 0x06, 0x22, 0x08, 0x22, 0x0A, 0x22, 0x0C, 0x22, 0x0E,
   0x22, 0x10, 0x22, 0x12, 0x22, 0x14, 0x22, 0x16, 0x22, 0x18, 0x22, 0x1A, 0x22, 0x1C,
   0x22, 0x1E, 0x22, 0x20]

/-- `sp = 255` (the value left by a call with `sp = 0`), `stack[0] = 0x300`,
next opcode `00EE` (return). -/
def example_return : chip8 :=
  { machine_with [0x00, 0xEE] with sp := 255, stack := upd (fun _ => 0) 0 0x300 }

/-- The program `AFFF 60FF F01E F033`: `I = 0xFFF`, `V0 = 0xFF`, `I += V0`,
then the decimal digits of `V0` to `memory[I..I+2]`. -/
def bcd_past_memory : List Nat := [0xAF, 0xFF, 0x60, 0xFF, 0xF0, 0x1E, 0xF0, 0x33]

/-- `V1 = 254`, `I = 0x300`, next opcode `F133` (decimal digits of `V1`). -/
def example_bcd : chip8 :=
  { machine_with [0xF1, 0x33] with V := upd (fun _ => 0) 1 254, I := 0x300 }

/-- `V0 = 1`, `V1 = 2`, `V2 = 3`, `I = 0x300`, next opcode `F255` (store
`V0..V2`). -/
def example_store : chip8 :=
  { machine_with [0xF2, 0x55] with V := upd (upd (upd (fun _ => 0) 0 1) 1 2) 2 3, I := 0x300 }

/-- `I = 0x300`, next opcode `F265` (load `V0..V2`). -/
def example_load : chip8 :=
  { machine_with [0xF2, 0x65] with I := 0x300 }

/-- `V0 = 0`, next opcode `3000` (skip if `V0 = 0`). -/
def example_skip : chip8 := machine_with [0x30, 0x00]

/-- The font table in memory, `V0 = 7`, next opcode `F029` (address of the
glyph of `V0`). -/
def example_font : chip8 :=
  { machine_with [0xF0, 0x29] with
    memory := fun a =>
      if a < 80 then chip8_font.getD a 0 else (machine_with [0xF0, 0x29]).memory a,
    V := upd (fun _ => 0) 0 7 }

/-- `V1 = 1`, `VF = 2`, next opcode `81F4` (add `VF` to `V1`). -/
def example_add_vf : chip8 :=
  { machine_with [0x81, 0xF4] with V := upd (upd (fun _ => 0) 1 1) 0xF 2 }

/-- `V1 = 200`, `VF = 100`, next opcode `81F4` (add `VF` to `V1`). -/
def example_add_vf_carry : chip8 :=
  { machine_with [0x81, 0xF4] with V := upd (upd (fun _ => 0) 1 200) 0xF 100 }

/-- `V1 = 9`, `VF = 4`, next opcode `81F5` (subtract `VF` from `V1`). -/
def example_sub_vf : chip8 :=
  { machine_with [0x81, 0xF5] with V := upd (upd (fun _ => 0) 1 9) 0xF 4 }

/-- `V1 = 9`, `VF = 4`, next opcode `81F7` (subtract `V1` from `VF`). -/
def example_subn_vf : chip8 :=
  { machine_with [0x81, 0xF7] with V := upd (upd (fun _ => 0) 1 9) 0xF 4 }

/-! ## Auxiliary lemmas: arrays and opcode decoding -/

@[simp] theorem upd_same {α : Type} (a : Nat → α) (i : Nat) (v : α) : upd a i v i = v := by
  simp [upd]

theorem upd_ne {α : Type} {a : Nat → α} {i k : Nat} {v : α} (h : k ≠ i) :
    upd a i v k = a k := by
  simp [upd, h]

theorem upd_upd {α : Type} (a : Nat → α) (i : Nat) (v w : α) :
    upd (upd a i v) i w = upd a i w := by
  funext k
  simp only [upd]
  split <;> rfl

theorem shiftRight_land (a b i : Nat) : (a &&& b) >>> i = (a >>> i) &&& (b >>> i) := by
  apply Nat.eq_of_testBit_eq
  intro j
  simp [Nat.testBit_shiftRight, Nat.testBit_and]

/-- The fields of the opcode whose nibbles are `fam`, `x`, `y`, `n`. -/
theorem op_fields (fam x y n : Nat) (hf : fam < 16) (hx : x < 16) (hy : y < 16) (hn : n < 16) :
    let op := (((16 * fam + x) <<< 8) ||| (16 * y + n)) % 0x10000
    op >>> 12 = fam ∧ op &&& 0x0FFF = 256 * x + 16 * y + n ∧ op &&& 0x00FF = 16 * y + n ∧
    op &&& 0x000F = n ∧ (op &&& 0x0F00) >>> 8 = x ∧ (op &&& 0x00F0) >>> 4 = y := by
  intro op
  have hop : op = 4096 * fam + 256 * x + 16 * y + n := by
    show (((16 * fam + x) <<< 8) ||| (16 * y + n)) % 0x10000 = _
    rw [Nat.shiftLeft_eq, Nat.mul_comm _ (2 ^ 8),
      ← Nat.mul_add_lt_is_or (by omega : 16 * y + n < 2 ^ 8)]
    omega
  have m1 : op &&& 0x0FFF = op % 4096 := Nat.and_pow_two_sub_one_eq_mod op 12
  have m2 : op &&& 0x00FF = op % 256 := Nat.and_pow_two_sub_one_eq_mod op 8
  have m3 : op &&& 0x000F = op % 16 := Nat.and_pow_two_sub_one_eq_mod op 4
  have m4 : (op &&& 0x0F00) >>> 8 = (op >>> 8) % 16 := by
    rw [shiftRight_land]
    exact Nat.and_pow_two_sub_one_eq_mod _ 4
  have m5 : (op &&& 0x00F0) >>> 4 = (op >>> 4) % 16 := by
    rw [shiftRight_land]
    exact Nat.and_pow_two_sub_one_eq_mod _ 4
  rw [m1, m2, m3, m4, m5]
  simp only [Nat.shiftRight_eq_div_pow]
  omega

/-- A step of a machine that is not waiting, whose program counter and the
byte after it are inside the memory, fetches the two bytes at `pc`, advances
`pc` by 2 and dispatches on the four nibbles of the opcode. -/
theorem step_decode (rnd : Nat) (chip : chip8) (fam x y n : Nat)
    (hf : fam < 16) (hx : x < 16) (hy : y < 16) (hn : n < 16)
    (hhalt : chip.halt_reg = 0) (hpc : chip.pc + 1 < 0x1000)
    (hhi : chip.memory chip.pc = 16 * fam + x) (hlo : chip.memory (chip.pc + 1) = 16 * y + n) :
    chip8_execute_next_instruction rnd chip =
      dispatch fam (256 * x + 16 * y + n) (16 * y + n) n x y rnd
        { chip with pc := chip.pc + 2 } := by
  have h1 : (chip.pc + 1) % 0x10000 = chip.pc + 1 := by omega
  have h2 : (chip.pc + 2) % 0x10000 = chip.pc + 2 := by omega
  have h3 : chip.pc < 0x1000 ∧ chip.pc + 1 < 0x1000 := by omega
  obtain ⟨e1, e2, e3, e4, e5, e6⟩ := op_fields fam x y n hf hx hy hn
  unfold chip8_execute_next_instruction
  simp only [hhalt, ne_eq, not_true_eq_false, if_false, h1, h2, h3, and_self, if_true, hhi, hlo]
  simp only [e1, e2, e3, e4, e5, e6]

/-! ## Auxiliary lemmas: the draw loops -/

theorem sprite_bit_le (byte j : Nat) : sprite_bit byte j ≤ 1 := by
  unfold sprite_bit
  rw [Nat.and_one_is_mod]
  omega

theorem sprite_bit_ne_zero (byte j : Nat) : sprite_bit byte j ≠ 0 ↔ sprite_bit byte j = 1 := by
  have := sprite_bit_le byte j
  omega

theorem xor_bit_lt (d bit : Nat) (hd : d < 256) (hb : bit ≤ 1) : d ^^^ bit < 256 :=
  Nat.xor_lt_two_pow (n := 8) hd (by omega)

theorem draw_pixel_eq (x y i byte : Nat) (c : chip8) (d : Nat → Nat) (vf j : Nat)
    (hx : x ≠ 0xF) (hy : y ≠ 0xF) (hd : ∀ p, d p < 256) :
    draw_pixel x y i byte { c with display := d, V := upd c.V 0xF vf } j =
      { c with
        display := upd d (pixel_pos (c.V x) (c.V y) i j)
          (d (pixel_pos (c.V x) (c.V y) i j) ^^^ sprite_bit byte j),
        V := upd c.V 0xF
          (if sprite_bit byte j ≠ 0 ∧ d (pixel_pos (c.V x) (c.V y) i j) ≠ 0 then 1 else vf) } := by
  have hm : (d (pixel_pos (c.V x) (c.V y) i j) ^^^ sprite_bit byte j) % 256 =
      d (pixel_pos (c.V x) (c.V y) i j) ^^^ sprite_bit byte j :=
    Nat.mod_eq_of_lt (xor_bit_lt _ _ (hd _) (sprite_bit_le _ _))
  unfold draw_pixel
  simp only [upd_ne hx, upd_ne hy]
  by_cases hc : sprite_bit byte j ≠ 0 ∧ d (pixel_pos (c.V x) (c.V y) i j) ≠ 0
  · have hc' := hc
    simp only [sprite_bit, pixel_pos] at hc'
    simp only [sprite_bit, pixel_pos] at hm
    simp only [sprite_bit, pixel_pos, hc', and_self, if_true, not_false_eq_true, ne_eq, upd_upd, upd_ne hx, upd_ne hy, hm]
  · have hc' := hc
    simp only [sprite_bit, pixel_pos] at hc'
    simp only [sprite_bit, pixel_pos] at hm
    simp only [sprite_bit, pixel_pos, hc', if_false, hm]

theorem draw_row_pixels (x y i byte : Nat) (c : chip8) (hx : x ≠ 0xF) (hy : y ≠ 0xF)
    (k : Nat) (hk : k ≤ 64) (d : Nat → Nat) (vf : Nat) (hd : ∀ p, d p < 256) :
    ∃ d' vf',
      (List.range k).foldl (draw_pixel x y i byte) { c with display := d, V := upd c.V 0xF vf } =
        { c with display := d', V := upd c.V 0xF vf' } ∧
      (∀ p, d' p < 256) ∧
      (∀ j, j < k → d' (pixel_pos (c.V x) (c.V y) i j) =
        d (pixel_pos (c.V x) (c.V y) i j) ^^^ sprite_bit byte j) ∧
      (∀ p, (∀ j, j < k → p ≠ pixel_pos (c.V x) (c.V y) i j) → d' p = d p) ∧
      ((∃ j, j < k ∧ sprite_bit byte j ≠ 0 ∧ d (pixel_pos (c.V x) (c.V y) i j) ≠ 0) → vf' = 1) ∧
      ((¬ ∃ j, j < k ∧ sprite_bit byte j ≠ 0 ∧ d (pixel_pos (c.V x) (c.V y) i j) ≠ 0) →
        vf' = vf) := by
  induction k with
  | zero =>
    refine ⟨d, vf, rfl, hd, ?_, ?_, ?_, ?_⟩
    · intro j hj; omega
    · intro p _; rfl
    · rintro ⟨j, hj, _⟩; omega
    · intro _; rfl
  | succ k ih =>
    obtain ⟨d1, vf1, e1, hd1, hhit, hmiss, hcol, hnocol⟩ := ih (by omega)
    have hfresh : d1 (pixel_pos (c.V x) (c.V y) i k) = d (pixel_pos (c.V x) (c.V y) i k) := by
      apply hmiss
      intro j hj
      simp only [pixel_pos]
      omega
    rw [List.range_succ, List.foldl_append, e1, List.foldl_cons, List.foldl_nil,
      draw_pixel_eq x y i byte c d1 vf1 k hx hy hd1]
    refine ⟨_, _, rfl, ?_, ?_, ?_, ?_, ?_⟩
    · intro p
      simp only [upd]
      split
      · exact xor_bit_lt _ _ (hd1 _) (sprite_bit_le _ _)
      · exact hd1 p
    · intro j hj
      by_cases hjk : j = k
      · subst hjk
        rw [upd_same, hfresh]
      · have hne : pixel_pos (c.V x) (c.V y) i j ≠ pixel_pos (c.V x) (c.V y) i k := by
          simp only [pixel_pos]
          omega
        rw [upd_ne hne]
        exact hhit j (by omega)
    · intro p hp
      have hne : p ≠ pixel_pos (c.V x) (c.V y) i k := hp k (by omega)
      rw [upd_ne hne]
      exact hmiss p (fun j hj => hp j (by omega))
    · rintro ⟨j, hj, hb, hdj⟩
      by_cases hjk : j = k
      · subst hjk
        rw [hfresh]
        simp [hb, hdj]
      · have h1 : vf1 = 1 := hcol ⟨j, by omega, hb, hdj⟩
        rw [h1]
        split <;> rfl
    · intro hno
      have hk1 : ¬ (sprite_bit byte k ≠ 0 ∧ d (pixel_pos (c.V x) (c.V y) i k) ≠ 0) :=
        fun h => hno ⟨k, by omega, h.1, h.2⟩
      rw [hfresh, if_neg hk1]
      apply hnocol
      rintro ⟨j, hj, hb, hdj⟩
      exact hno ⟨j, by omega, hb, hdj⟩

theorem draw_rows_pixels (x y : Nat) (c : chip8) (hx : x ≠ 0xF) (hy : y ≠ 0xF)
    (n : Nat) (hn : n ≤ 32) (hI : c.I + n ≤ 0x1000) (d : Nat → Nat) (vf : Nat)
    (hd : ∀ p, d p < 256) :
    ∃ d' vf',
      (List.range n).foldlM (draw_row x y) { c with display := d, V := upd c.V 0xF vf } =
        some { c with display := d', V := upd c.V 0xF vf' } ∧
      (∀ p, d' p < 256) ∧
      (∀ i j, i < n → j < 8 → d' (pixel_pos (c.V x) (c.V y) i j) =
        d (pixel_pos (c.V x) (c.V y) i j) ^^^ sprite_bit (c.memory (c.I + i)) j) ∧
      (∀ p, (∀ i j, i < n → j < 8 → p ≠ pixel_pos (c.V x) (c.V y) i j) → d' p = d p) ∧
      ((∃ i j, i < n ∧ j < 8 ∧ sprite_bit (c.memory (c.I + i)) j ≠ 0 ∧
        d (pixel_pos (c.V x) (c.V y) i j) ≠ 0) → vf' = 1) ∧
      ((¬ ∃ i j, i < n ∧ j < 8 ∧ sprite_bit (c.memory (c.I + i)) j ≠ 0 ∧
        d (pixel_pos (c.V x) (c.V y) i j) ≠ 0) → vf' = vf) := by
  induction n with
  | zero =>
    refine ⟨d, vf, rfl, hd, ?_, ?_, ?_, ?_⟩
    · intro i j hi; omega
    · intro p _; rfl
    · rintro ⟨i, j, hi, _⟩; omega
    · intro _; rfl
  | succ n ih =>
    obtain ⟨d1, vf1, e1, hd1, hhit, hmiss, hcol, hnocol⟩ := ih (by omega) (by omega)
    obtain ⟨d2, vf2, e2, hd2, hhit2, hmiss2, hcol2, hnocol2⟩ :=
      draw_row_pixels x y n (c.memory (c.I + n)) c hx hy 8 (by omega) d1 vf1 hd1
    have hfresh : ∀ j, j < 8 →
        d1 (pixel_pos (c.V x) (c.V y) n j) = d (pixel_pos (c.V x) (c.V y) n j) := by
      intro j hj
      apply hmiss
      intro i j' hi hj'
      simp only [pixel_pos]
      omega
    have hrow : draw_row x y { c with display := d1, V := upd c.V 0xF vf1 } n =
        some { c with display := d2, V := upd c.V 0xF vf2 } := by
      have hIn : c.I + n < 0x1000 := by omega
      simp only [draw_row, hIn, if_true, e2]
    refine ⟨d2, vf2, ?_, hd2, ?_, ?_, ?_, ?_⟩
    · rw [List.range_succ, List.foldlM_append, e1]
      simp [hrow]
    · intro i j hi hj
      by_cases hin : i = n
      · subst hin
        rw [hhit2 j hj, hfresh j hj]
      · have : d2 (pixel_pos (c.V x) (c.V y) i j) = d1 (pixel_pos (c.V x) (c.V y) i j) := by
          apply hmiss2
          intro j' hj'
          simp only [pixel_pos]
          omega
        rw [this]
        exact hhit i j (by omega) hj
    · intro p hp
      rw [hmiss2 p (fun j hj => hp n j (by omega) hj)]
      exact hmiss p (fun i j hi hj => hp i j (by omega) hj)
    · rintro ⟨i, j, hi, hj, hb, hdj⟩
      by_cases hin : i = n
      · subst hin
        apply hcol2
        exact ⟨j, hj, hb, by rw [hfresh j hj]; exact hdj⟩
      · have h1 : vf1 = 1 := hcol ⟨i, j, by omega, hj, hb, hdj⟩
        by_cases hex : ∃ j, j < 8 ∧ sprite_bit (c.memory (c.I + n)) j ≠ 0 ∧
            d1 (pixel_pos (c.V x) (c.V y) n j) ≠ 0
        · exact hcol2 hex
        · rw [hnocol2 hex, h1]
    · intro hno
      have hex : ¬ ∃ j, j < 8 ∧ sprite_bit (c.memory (c.I + n)) j ≠ 0 ∧
          d1 (pixel_pos (c.V x) (c.V y) n j) ≠ 0 := by
        rintro ⟨j, hj, hb, hdj⟩
        exact hno ⟨n, j, by omega, hj, hb, by rw [← hfresh j hj]; exact hdj⟩
      rw [hnocol2 hex]
      apply hnocol
      rintro ⟨i, j, hi, hj, hb, hdj⟩
      exact hno ⟨i, j, by omega, hj, hb, hdj⟩

theorem draw_step (rnd : Nat) (chip : chip8) (x y n : Nat)
    (hx : x < 15) (hy : y < 15) (hn : n ≤ 15)
    (hhalt : chip.halt_reg = 0) (hpc : chip.pc + 1 < 0x1000)
    (hhi : chip.memory chip.pc = 0xD0 + x) (hlo : chip.memory (chip.pc + 1) = 16 * y + n)
    (hI : chip.I + n ≤ 0x1000) (hd : ∀ p, chip.display p < 256) :
    ∃ d' vf',
      chip8_execute_next_instruction rnd chip =
        some { chip with
          pc := chip.pc + 2, display := d', V := upd chip.V 0xF vf', draw := true } ∧
      (∀ p, d' p < 256) ∧
      (∀ i j, i < n → j < 8 → d' (pixel_pos (chip.V x) (chip.V y) i j) =
        chip.display (pixel_pos (chip.V x) (chip.V y) i j) ^^^
          sprite_bit (chip.memory (chip.I + i)) j) ∧
      (∀ p, (∀ i j, i < n → j < 8 → p ≠ pixel_pos (chip.V x) (chip.V y) i j) →
        d' p = chip.display p) ∧
      ((∃ i j, i < n ∧ j < 8 ∧ sprite_bit (chip.memory (chip.I + i)) j ≠ 0 ∧
        chip.display (pixel_pos (chip.V x) (chip.V y) i j) ≠ 0) → vf' = 1) ∧
      ((¬ ∃ i j, i < n ∧ j < 8 ∧ sprite_bit (chip.memory (chip.I + i)) j ≠ 0 ∧
        chip.display (pixel_pos (chip.V x) (chip.V y) i j) ≠ 0) → vf' = 0) := by
  obtain ⟨d', vf', e, h1, h2, h3, h4, h5⟩ :=
    draw_rows_pixels x y { chip with pc := chip.pc + 2 } (by omega) (by omega) n (by omega)
      hI chip.display 0 hd
  refine ⟨d', vf', ?_, h1, h2, h3, h4, h5⟩
  rw [step_decode rnd chip 0xD x y n (by omega) (by omega) (by omega) (by omega) hhalt hpc
    (by omega) hlo]
  simp only [dispatch, draw_sprite]
  simp only at e
  rw [e]
  rfl

/-! ## Auxiliary lemmas: loops and the fields they keep -/

/-- A field that every pass of a loop keeps is kept by the loop. -/
theorem foldl_keeps {α : Type} (g : chip8 → α) (f : chip8 → Nat → chip8)
    (hf : ∀ c i, g (f c i) = g c) (l : List Nat) (c : chip8) : g (l.foldl f c) = g c := by
  induction l generalizing c with
  | nil => rfl
  | cons a l ih => rw [List.foldl_cons, ih, hf]

/-- A field that every successful pass of a loop keeps is kept by the loop when it succeeds. -/
theorem foldlM_keeps {α : Type} (g : chip8 → α) (f : chip8 → Nat → Option chip8)
    (hf : ∀ c i c', f c i = some c' → g c' = g c) (l : List Nat) (c c' : chip8)
    (h : l.foldlM f c = some c') : g c' = g c := by
  induction l generalizing c with
  | nil =>
    simp only [List.foldlM_nil, Option.pure_def, Option.some.injEq] at h
    rw [h]
  | cons a l ih =>
    rw [List.foldlM_cons] at h
    cases hfa : f c a with
    | none => rw [hfa] at h; simp at h
    | some c1 =>
      rw [hfa] at h
      simp only [Option.bind_eq_bind, Option.some_bind] at h
      rw [ih c1 h, hf c a c1 hfa]

/-- A loop over `i < k` whose pass `i` succeeds exactly when `I + i` is inside the
memory, and keeps `I`: it succeeds when every `I + i` is inside the memory, and
fails otherwise. -/
theorem loop_some_iff (f : chip8 → Nat → Option chip8)
    (hsome : ∀ c i, c.I + i < 0x1000 → ∃ c', f c i = some c' ∧ c'.I = c.I)
    (hnone : ∀ c i, ¬ c.I + i < 0x1000 → f c i = none) (chip : chip8) (k : Nat) :
    ((∀ i, i < k → chip.I + i < 0x1000) →
      ∃ c', (List.range k).foldlM f chip = some c' ∧ c'.I = chip.I) ∧
    ((¬ ∀ i, i < k → chip.I + i < 0x1000) → (List.range k).foldlM f chip = none) := by
  induction k with
  | zero =>
    refine ⟨fun _ => ⟨chip, rfl, rfl⟩, fun h => ?_⟩
    exact absurd (fun i hi => absurd hi (Nat.not_lt_zero i)) h
  | succ k ih =>
    rw [List.range_succ, List.foldlM_append]
    by_cases hk : ∀ i, i < k → chip.I + i < 0x1000
    · obtain ⟨c1, e1, hI1⟩ := ih.1 hk
      rw [e1]
      simp only [Option.bind_eq_bind, Option.some_bind, List.foldlM_cons, List.foldlM_nil]
      by_cases hlast : chip.I + k < 0x1000
      · obtain ⟨c2, e2, hI2⟩ := hsome c1 k (by rw [hI1]; exact hlast)
        refine ⟨fun _ => ⟨c2, by rw [e2]; rfl, by rw [hI2, hI1]⟩, fun h => ?_⟩
        exfalso
        apply h
        intro i hi
        by_cases hik : i = k
        · rw [hik]; exact hlast
        · exact hk i (by omega)
      · refine ⟨fun h => absurd (h k (by omega)) hlast, fun _ => ?_⟩
        rw [hnone c1 k (by rw [hI1]; exact hlast)]
        rfl
    · rw [ih.2 hk]
      refine ⟨fun h => absurd (fun i hi => h i (by omega)) hk, fun _ => rfl⟩

theorem draw_pixel_I (x y i byte : Nat) (c : chip8) (j : Nat) :
    (draw_pixel x y i byte c j).I = c.I := by
  unfold draw_pixel
  simp only
  split <;> rfl

theorem draw_pixel_pc (x y i byte : Nat) (c : chip8) (j : Nat) :
    (draw_pixel x y i byte c j).pc = c.pc := by
  unfold draw_pixel
  simp only
  split <;> rfl

theorem draw_row_some (x y : Nat) (c : chip8) (i : Nat) (hi : c.I + i < 0x1000) :
    ∃ c', draw_row x y c i = some c' ∧ c'.I = c.I :=
  ⟨(List.range 8).foldl (draw_pixel x y i (c.memory (c.I + i))) c,
    by simp only [draw_row, hi, if_true],
    foldl_keeps chip8.I _ (draw_pixel_I x y i _) _ c⟩

theorem store_reg_some (c : chip8) (i : Nat) (hi : c.I + i < 0x1000) :
    ∃ c', store_reg c i = some c' ∧ c'.I = c.I :=
  ⟨{ c with memory := upd c.memory (c.I + i) (c.V i) },
    by simp only [store_reg, hi, if_true], rfl⟩

theorem load_reg_some (c : chip8) (i : Nat) (hi : c.I + i < 0x1000) :
    ∃ c', load_reg c i = some c' ∧ c'.I = c.I :=
  ⟨{ c with V := upd c.V i (c.memory (c.I + i)) },
    by simp only [load_reg, hi, if_true], rfl⟩

theorem some_iff_of_loop (r : Option chip8) (P : Prop)
    (h : (P → ∃ c', r = some c') ∧ (¬ P → r = none)) :
    r.isSome = true ↔ P := by
  by_cases hb : P
  · obtain ⟨c', e⟩ := h.1 hb
    rw [e]
    exact ⟨fun _ => hb, fun _ => rfl⟩
  · rw [h.2 hb]
    exact ⟨fun h => by simp at h, fun h => absurd h hb⟩

/-- The draw loops succeed exactly when the `n` sprite bytes are inside the memory. -/
theorem draw_sprite_some_iff (x y n : Nat) (chip : chip8) :
    (draw_sprite x y n chip).isSome = true ↔ ∀ i, i < n → chip.I + i < 0x1000 := by
  have h := loop_some_iff (draw_row x y) (draw_row_some x y)
    (fun c i hi => by simp only [draw_row, hi, if_false])
    { chip with V := upd chip.V 0xF 0 } n
  unfold draw_sprite
  rw [Option.isSome_map']
  exact some_iff_of_loop _ _ ⟨fun hb => (h.1 hb).imp fun c' hc => hc.1, h.2⟩

/-- The store loop succeeds exactly when the `k` bytes written are inside the memory. -/
theorem store_loop_some_iff (k : Nat) (chip : chip8) :
    ((List.range k).foldlM store_reg chip).isSome = true ↔ ∀ i, i < k → chip.I + i < 0x1000 := by
  have h := loop_some_iff store_reg store_reg_some
    (fun c i hi => by simp only [store_reg, hi, if_false]) chip k
  exact some_iff_of_loop _ _ ⟨fun hb => (h.1 hb).imp fun c' hc => hc.1, h.2⟩

/-- The load loop succeeds exactly when the `k` bytes read are inside the memory. -/
theorem load_loop_some_iff (k : Nat) (chip : chip8) :
    ((List.range k).foldlM load_reg chip).isSome = true ↔ ∀ i, i < k → chip.I + i < 0x1000 := by
  have h := loop_some_iff load_reg load_reg_some
    (fun c i hi => by simp only [load_reg, hi, if_false]) chip k
  exact some_iff_of_loop _ _ ⟨fun hb => (h.1 hb).imp fun c' hc => hc.1, h.2⟩

theorem alu_pc (n x y : Nat) (c : chip8) : (alu n x y c).pc = c.pc := by
  unfold alu
  split <;> rfl

theorem store_reg_pc (c : chip8) (i : Nat) (c' : chip8) (h : store_reg c i = some c') :
    c'.pc = c.pc := by
  unfold store_reg at h
  split at h
  · simp only [Option.some.injEq] at h; rw [← h]
  · cases h

theorem load_reg_pc (c : chip8) (i : Nat) (c' : chip8) (h : load_reg c i = some c') :
    c'.pc = c.pc := by
  unfold load_reg at h
  split at h
  · simp only [Option.some.injEq] at h; rw [← h]
  · cases h

theorem misc_pc (nn x : Nat) (c c' : chip8) (h : misc nn x c = some c') : c'.pc = c.pc := by
  unfold misc at h
  split at h
  all_goals first
    | (simp only [Option.some.injEq] at h; rw [← h])
    | exact foldlM_keeps chip8.pc store_reg store_reg_pc _ _ _ h
    | exact foldlM_keeps chip8.pc load_reg load_reg_pc _ _ _ h
    | (split at h
       · simp only [Option.some.injEq] at h; rw [← h]
       · cases h)

theorem draw_row_pc (x y : Nat) (c : chip8) (i : Nat) (c' : chip8)
    (h : draw_row x y c i = some c') : c'.pc = c.pc := by
  unfold draw_row at h
  split at h
  · simp only [Option.some.injEq] at h
    rw [← h]
    exact foldl_keeps chip8.pc _ (draw_pixel_pc x y i _) _ c
  · cases h

theorem draw_sprite_pc (x y n : Nat) (c c' : chip8) (h : draw_sprite x y n c = some c') :
    c'.pc = c.pc := by
  unfold draw_sprite at h
  rw [Option.map_eq_some'] at h
  obtain ⟨c1, e1, rfl⟩ := h
  exact foldlM_keeps chip8.pc (draw_row x y) (draw_row_pc x y) _
    { c with V := upd c.V 0xF 0 } c1 e1

/-- The store loop over `i < k`, when the `k` bytes are inside the memory:
`memory[I + i] = V[i]` for `i < k`, nothing else changes. -/
theorem store_loop_eq (chip : chip8) (k : Nat) (h : chip.I + k ≤ 0x1000) :
    (List.range k).foldlM store_reg chip =
      some { chip with
        memory := fun a =>
          if chip.I ≤ a ∧ a < chip.I + k then chip.V (a - chip.I) else chip.memory a } := by
  induction k with
  | zero =>
    have : (fun a => if chip.I ≤ a ∧ a < chip.I + 0 then chip.V (a - chip.I)
        else chip.memory a) = chip.memory := by
      funext a
      have : ¬ (chip.I ≤ a ∧ a < chip.I + 0) := by omega
      simp only [this, if_false]
    rw [this]
    rfl
  | succ k ih =>
    have hk : chip.I + k < 0x1000 := by omega
    rw [List.range_succ, List.foldlM_append, ih (by omega)]
    simp only [Option.bind_eq_bind, Option.some_bind, List.foldlM_cons, List.foldlM_nil,
      store_reg, hk, if_true, Option.pure_def, Option.some.injEq]
    congr 1
    funext a
    simp only [upd]
    by_cases ha : a = chip.I + k
    · subst ha
      have h1 : chip.I ≤ chip.I + k ∧ chip.I + k < chip.I + (k + 1) := by omega
      simp only [if_true, h1, and_self, Nat.add_sub_cancel_left]
    · by_cases hin : chip.I ≤ a ∧ a < chip.I + k
      · have h1 : chip.I ≤ a ∧ a < chip.I + (k + 1) := by omega
        simp only [ha, if_false, hin, and_self, if_true, h1]
      · have h1 : ¬ (chip.I ≤ a ∧ a < chip.I + (k + 1)) := by omega
        simp only [ha, if_false, hin, h1]

/-- The load loop over `i < k`, when the `k` bytes are inside the memory:
`V[i] = memory[I + i]` for `i < k`, nothing else changes. -/
theorem load_loop_eq (chip : chip8) (k : Nat) (h : chip.I + k ≤ 0x1000) :
    (List.range k).foldlM load_reg chip =
      some { chip with
        V := fun r => if r < k then chip.memory (chip.I + r) else chip.V r } := by
  induction k with
  | zero =>
    have : (fun r => if r < 0 then chip.memory (chip.I + r) else chip.V r) = chip.V := by
      funext r
      simp only [Nat.not_lt_zero, if_false]
    rw [this]
    rfl
  | succ k ih =>
    have hk : chip.I + k < 0x1000 := by omega
    rw [List.range_succ, List.foldlM_append, ih (by omega)]
    simp only [Option.bind_eq_bind, Option.some_bind, List.foldlM_cons, List.foldlM_nil,
      load_reg, hk, if_true, Option.pure_def, Option.some.injEq]
    congr 1
    funext r
    simp only [upd]
    by_cases hr : r = k
    · subst hr
      simp only [if_true, Nat.lt_succ_self]
    · by_cases hin : r < k
      · have h1 : r < k + 1 := by omega
        simp only [hr, if_false, hin, if_true, h1]
      · have h1 : ¬ r < k + 1 := by omega
        simp only [hr, if_false, hin, h1]

/-! ## Arithmetic instructions (C1, C2, C3) -/

/-- C1 (add-with-carry, opcode 8xy4): in a machine that is not waiting, whose
next opcode is 8xy4 with `x` and `y` both different from 0xF, and with
`Vx = a`, `Vy = b` (two bytes), one call of `chip8_execute_next_instruction`
returns a state with `VF = 1` if `a + b > 255` and `VF = 0` otherwise, and
with `Vx = (a + b) mod 256`. -/
theorem add_with_carry_spec (rnd : Nat) (chip : chip8) (x y a b : Nat)
    (hx : x < 15) (hy : y < 15)
    (hhalt : chip.halt_reg = 0) (hpc : chip.pc + 1 < 0x1000)
    (hhi : chip.memory chip.pc = 0x80 + x) (hlo : chip.memory (chip.pc + 1) = 16 * y + 4)
    (ha : chip.V x = a) (hb : chip.V y = b) (ha8 : a < 256) (hb8 : b < 256) :
    ∃ chip', chip8_execute_next_instruction rnd chip = some chip' ∧
      chip'.V 0xF = (if a + b > 255 then 1 else 0) ∧ chip'.V x = (a + b) % 256 := by
  rw [step_decode rnd chip 8 x y 4 (by omega) (by omega) (by omega) (by omega) hhalt hpc
    (by omega) hlo]
  have hFx : (0xF : Nat) ≠ x := by omega
  have hxF : x ≠ 0xF := by omega
  have hyF : y ≠ 0xF := by omega
  refine ⟨_, rfl, ?_, ?_⟩
  · simp only [alu, upd_ne hFx, upd_same, ha, hb, Nat.shiftRight_eq_div_pow]
    split <;> omega
  · simp only [alu, upd_same, upd_ne hxF, upd_ne hyF, ha, hb]

/-- Witness of C1: `200 + 100` carries, the sum wraps to 44. -/
theorem add_with_carry_spec_witness :
    ∃ chip', chip8_execute_next_instruction 0 example_add = some chip' ∧
      chip'.V 0xF = (if 200 + 100 > 255 then 1 else 0) ∧ chip'.V 1 = (200 + 100) % 256 :=
  add_with_carry_spec 0 example_add 1 2 200 100 (by decide) (by decide) rfl (by decide)
    rfl rfl rfl rfl (by decide) (by decide)

/-- C2 (sub-with-borrow, opcode 8xy5): in a machine that is not waiting, whose
next opcode is 8xy5 with `x` and `y` both different from 0xF, and with
`Vx = a`, `Vy = b` (two bytes), one call of `chip8_execute_next_instruction`
returns a state with `VF = 1` if `a > b` and `VF = 0` otherwise, and with
`Vx = (a - b) mod 256`, the difference taken in the integers. -/
theorem sub_with_borrow_spec (rnd : Nat) (chip : chip8) (x y a b : Nat)
    (hx : x < 15) (hy : y < 15)
    (hhalt : chip.halt_reg = 0) (hpc : chip.pc + 1 < 0x1000)
    (hhi : chip.memory chip.pc = 0x80 + x) (hlo : chip.memory (chip.pc + 1) = 16 * y + 5)
    (ha : chip.V x = a) (hb : chip.V y = b) (ha8 : a < 256) (hb8 : b < 256) :
    ∃ chip', chip8_execute_next_instruction rnd chip = some chip' ∧
      chip'.V 0xF = (if a > b then 1 else 0) ∧
      (chip'.V x : Int) = ((a : Int) - (b : Int)) % 256 := by
  rw [step_decode rnd chip 8 x y 5 (by omega) (by omega) (by omega) (by omega) hhalt hpc
    (by omega) hlo]
  have hFx : (0xF : Nat) ≠ x := by omega
  have hxF : x ≠ 0xF := by omega
  have hyF : y ≠ 0xF := by omega
  refine ⟨_, rfl, ?_, ?_⟩
  · simp only [alu, upd_ne hFx, upd_same, ha, hb]
  · simp only [alu, upd_same, upd_ne hxF, upd_ne hyF, ha, hb, sub8]
    omega

/-- Witness of C2: `3 - 5` borrows (`VF = 0`) and wraps to 254. -/
theorem sub_with_borrow_spec_witness :
    ∃ chip', chip8_execute_next_instruction 0 example_sub = some chip' ∧
      chip'.V 0xF = (if 3 > 5 then 1 else 0) ∧
      (chip'.V 1 : Int) = (((3 : Nat) : Int) - ((5 : Nat) : Int)) % 256 :=
  sub_with_borrow_spec 0 example_sub 1 2 3 5 (by decide) (by decide) rfl (by decide)
    rfl rfl rfl rfl (by decide) (by decide)

/-- C3 (shifts, opcodes 8xy6 and 8xyE): in a machine that is not waiting, with
`x` different from 0xF, any `y`, and `Vx = a` (a byte): executing 8xy6 gives
`VF = a mod 2` and `Vx = a / 2`; executing 8xyE gives `VF = a / 128` and
`Vx = (2 * a) mod 256`.  Every register other than `Vx` and `VF` keeps its
value (so does `Vy` when `y` is neither `x` nor 0xF), and `Vy` is not read:
with any other value `v` in `Vy` the step gives the same `VF` and `Vx` and
leaves `Vy = v`. -/
theorem shifts_spec (rnd : Nat) (chip : chip8) (x y n a : Nat)
    (hx : x < 15) (hy : y < 16) (hn : n = 0x6 ∨ n = 0xE)
    (hhalt : chip.halt_reg = 0) (hpc : chip.pc + 1 < 0x1000)
    (hhi : chip.memory chip.pc = 0x80 + x) (hlo : chip.memory (chip.pc + 1) = 16 * y + n)
    (ha : chip.V x = a) (ha8 : a < 256) :
    ∃ chip', chip8_execute_next_instruction rnd chip = some chip' ∧
      (n = 0x6 → chip'.V 0xF = a % 2 ∧ chip'.V x = a / 2) ∧
      (n = 0xE → chip'.V 0xF = a / 128 ∧ chip'.V x = (2 * a) % 256) ∧
      (∀ r, r ≠ x → r ≠ 0xF → chip'.V r = chip.V r) ∧
      (y ≠ x → y ≠ 0xF → ∀ v, ∃ chip2,
        chip8_execute_next_instruction rnd { chip with V := upd chip.V y v } = some chip2 ∧
        chip2.V 0xF = chip'.V 0xF ∧ chip2.V x = chip'.V x ∧ chip2.V y = v) := by
  have hFx : (0xF : Nat) ≠ x := by omega
  have hxF : x ≠ 0xF := by omega
  have h1 : a &&& 1 = a % 2 := Nat.and_one_is_mod a
  rcases hn with hn | hn <;> subst hn
  · rw [step_decode rnd chip 8 x y 6 (by omega) (by omega) (by omega) (by omega) hhalt hpc
      (by omega) hlo]
    refine ⟨_, rfl, ?_, ?_, ?_, ?_⟩
    · intro _
      constructor <;>
        simp [alu, upd_ne hFx, upd_ne hxF, ha, Nat.shiftRight_eq_div_pow, h1]
    · intro h; omega
    · intro r hr hrF
      simp only [alu, upd_ne hr, upd_ne hrF]
    · intro hyx hyF v
      have hxy : x ≠ y := fun h => hyx h.symm
      rw [step_decode rnd { chip with V := upd chip.V y v } 8 x y 6 (by omega) (by omega)
        (by omega) (by omega) hhalt hpc (by simpa using (by omega : chip.memory chip.pc = 16 * 8 + x)) hlo]
      refine ⟨_, rfl, ?_, ?_, ?_⟩
      · simp only [alu, upd_ne hFx, upd_ne hxF, upd_ne hxy, upd_same]
      · simp only [alu, upd_ne hFx, upd_ne hxF, upd_ne hxy, upd_same]
      · simp only [alu, upd_ne hyx, upd_ne hyF, upd_same]
  · rw [step_decode rnd chip 8 x y 0xE (by omega) (by omega) (by omega) (by omega) hhalt hpc
      (by omega) hlo]
    refine ⟨_, rfl, ?_, ?_, ?_, ?_⟩
    · intro h; omega
    · intro _
      constructor
      · simp only [alu, upd_ne hFx, upd_ne hxF, upd_same, ha, Nat.shiftRight_eq_div_pow]
        omega
      · simp only [alu, upd_ne hFx, upd_ne hxF, upd_same, ha, Nat.shiftLeft_eq]
        omega
    · intro r hr hrF
      simp only [alu, upd_ne hr, upd_ne hrF]
    · intro hyx hyF v
      have hxy : x ≠ y := fun h => hyx h.symm
      rw [step_decode rnd { chip with V := upd chip.V y v } 8 x y 0xE (by omega) (by omega)
        (by omega) (by omega) hhalt hpc (by simpa using (by omega : chip.memory chip.pc = 16 * 8 + x)) hlo]
      refine ⟨_, rfl, ?_, ?_, ?_⟩
      · simp only [alu, upd_ne hFx, upd_ne hxF, upd_ne hxy, upd_same]
      · simp only [alu, upd_ne hFx, upd_ne hxF, upd_ne hxy, upd_same]
      · simp only [alu, upd_ne hyx, upd_ne hyF, upd_same]

/-- Witness of C3: `0x85` shifted right (opcode `8126`) and left (`812E`). -/
theorem shifts_spec_witness :
    (∃ chip', chip8_execute_next_instruction 0 example_shr = some chip' ∧
      (0x6 = 0x6 → chip'.V 0xF = 0x85 % 2 ∧ chip'.V 1 = 0x85 / 2) ∧
      (0x6 = 0xE → chip'.V 0xF = 0x85 / 128 ∧ chip'.V 1 = (2 * 0x85) % 256) ∧
      (∀ r, r ≠ 1 → r ≠ 0xF → chip'.V r = example_shr.V r) ∧
      (2 ≠ 1 → 2 ≠ 0xF → ∀ v, ∃ chip2,
        chip8_execute_next_instruction 0 { example_shr with V := upd example_shr.V 2 v } =
          some chip2 ∧
        chip2.V 0xF = chip'.V 0xF ∧ chip2.V 1 = chip'.V 1 ∧ chip2.V 2 = v)) ∧
    (∃ chip', chip8_execute_next_instruction 0 example_shl = some chip' ∧
      (0xE = 0x6 → chip'.V 0xF = 0x85 % 2 ∧ chip'.V 1 = 0x85 / 2) ∧
      (0xE = 0xE → chip'.V 0xF = 0x85 / 128 ∧ chip'.V 1 = (2 * 0x85) % 256) ∧
      (∀ r, r ≠ 1 → r ≠ 0xF → chip'.V r = example_shl.V r) ∧
      (2 ≠ 1 → 2 ≠ 0xF → ∀ v, ∃ chip2,
        chip8_execute_next_instruction 0 { example_shl with V := upd example_shl.V 2 v } =
          some chip2 ∧
        chip2.V 0xF = chip'.V 0xF ∧ chip2.V 1 = chip'.V 1 ∧ chip2.V 2 = v)) :=
  ⟨shifts_spec 0 example_shr 1 2 0x6 0x85 (by decide) (by decide) (Or.inl rfl) rfl
      (by decide) rfl rfl rfl (by decide),
   shifts_spec 0 example_shl 1 2 0xE 0x85 (by decide) (by decide) (Or.inr rfl) rfl
      (by decide) rfl rfl rfl (by decide)⟩

/-! ## Call and return (C4) -/

/-- C4 (call/return round trip): in a machine that is not waiting, with `sp`
in 0..15 (`sp = 0`, the 16th nested call, included), the opcode 2nnn at
`pc` and the opcode 00EE at address `nnn`, two consecutive calls of
`chip8_execute_next_instruction` succeed, the first one jumps to `nnn`, and
the second one leaves `pc` at the instruction after the call and `sp` at its
value before the call. -/
theorem call_return_round_trip (r1 r2 : Nat) (chip : chip8) (nnn : Nat)
    (hhalt : chip.halt_reg = 0) (hsp : chip.sp < 16)
    (hpc : chip.pc + 1 < 0x1000) (hnnn : nnn + 1 < 0x1000)
    (hhi : chip.memory chip.pc = 0x20 + nnn / 0x100)
    (hlo : chip.memory (chip.pc + 1) = nnn % 0x100)
    (hret_hi : chip.memory nnn = 0x00) (hret_lo : chip.memory (nnn + 1) = 0xEE) :
    ∃ c1 c2, chip8_execute_next_instruction r1 chip = some c1 ∧
      chip8_execute_next_instruction r2 c1 = some c2 ∧
      c1.pc = nnn ∧ c2.pc = chip.pc + 2 ∧ c2.sp = chip.sp := by
  have e1 : chip8_execute_next_instruction r1 chip =
      some { chip with
        stack := upd chip.stack chip.sp (chip.pc + 2), sp := (chip.sp + 255) % 256, pc := nnn } := by
    rw [step_decode r1 chip 2 (nnn / 0x100) (nnn / 0x10 % 0x10) (nnn % 0x10) (by omega)
      (by omega) (by omega) (by omega) hhalt hpc (by omega) (by omega)]
    have : 256 * (nnn / 0x100) + 16 * (nnn / 0x10 % 0x10) + nnn % 0x10 = nnn := by omega
    simp [dispatch, hsp, this]
  have e2 : chip8_execute_next_instruction r2 { chip with
        stack := upd chip.stack chip.sp (chip.pc + 2), sp := (chip.sp + 255) % 256, pc := nnn } =
      some { chip with
        stack := upd chip.stack chip.sp (chip.pc + 2), sp := chip.sp, pc := chip.pc + 2 } := by
    rw [step_decode r2 { chip with
        stack := upd chip.stack chip.sp (chip.pc + 2), sp := (chip.sp + 255) % 256, pc := nnn }
      0 0 0xE 0xE (by omega) (by omega) (by omega) (by omega) hhalt hnnn
      (by simpa using hret_hi) (by simpa using hret_lo)]
    have hs : ((chip.sp + 255) % 256 + 1) % 256 = chip.sp := by omega
    simp [dispatch, hs, hsp]
  exact ⟨_, _, e1, e2, rfl, rfl, rfl⟩

/-- Witness of C4: the call with `sp = 0` and the return that follows. -/
theorem call_return_round_trip_witness :
    ∃ c1 c2, chip8_execute_next_instruction 0 example_call = some c1 ∧
      chip8_execute_next_instruction 0 c1 = some c2 ∧
      c1.pc = 0x204 ∧ c2.pc = example_call.pc + 2 ∧ c2.sp = example_call.sp :=
  call_return_round_trip 0 0 example_call 0x204 rfl (by decide) (by decide) (by decide)
    rfl rfl rfl rfl

/-! ## Double draw (C5) -/

/-- C5, counterexample: with `x = 0xF` the double draw does not restore the
display.  From a blank display, `VF = V0 = 0`, `I = 0x204` and the one-row
sprite `0xFF` (`n = 1`), the opcode `DF01` is executed twice; `I`, the memory,
`VF` and `V0` are the same at the start of both draws; after the second draw
the pixels 1 and 8 of row 0 are set, although the display was blank. -/
theorem double_draw_vf_coordinate :
    ∃ c1 c2, chip8_execute_next_instruction 0 example_draw_vf = some c1 ∧
      chip8_execute_next_instruction 0 c1 = some c2 ∧
      c1.I = example_draw_vf.I ∧ c1.memory = example_draw_vf.memory ∧
      c1.V 0xF = example_draw_vf.V 0xF ∧ c1.V 0 = example_draw_vf.V 0 ∧
      example_draw_vf.display 1 = 0 ∧ c2.display 1 = 1 ∧ c2.display 8 = 1 ∧
      c2.display ≠ example_draw_vf.display :=
  ⟨_, _, rfl, rfl, rfl, rfl, rfl, rfl, rfl, rfl, rfl, fun h => by
    have h1 := congrFun h 1
    revert h1
    decide⟩

/-- C5, amended (double draw): in a machine that is not waiting, with `x` and
`y` different from 0xF, `n <= 15`, `I + n <= 0x1000`, a display of bytes, and
the same opcode Dxyn at `pc` and at `pc + 2`: the two steps succeed; `I`, the
memory, `Vx` and `Vy` are the same at the start of the second draw; the
display after the second draw is the display before the first.  If moreover
every pixel under a set sprite bit was 0 and the sprite has a set bit, then
`VF = 0` after the first draw, `VF = 1` after the second, and every pixel
under a set sprite bit is back at 0. -/
theorem double_draw_restores (r1 r2 : Nat) (chip : chip8) (x y n : Nat)
    (hx : x < 15) (hy : y < 15) (hn : n ≤ 15)
    (hhalt : chip.halt_reg = 0) (hpc : chip.pc + 3 < 0x1000)
    (hhi : chip.memory chip.pc = 0xD0 + x) (hlo : chip.memory (chip.pc + 1) = 16 * y + n)
    (hhi2 : chip.memory (chip.pc + 2) = 0xD0 + x)
    (hlo2 : chip.memory (chip.pc + 3) = 16 * y + n)
    (hI : chip.I + n ≤ 0x1000) (hd : ∀ p, chip.display p < 256) :
    ∃ c1 c2, chip8_execute_next_instruction r1 chip = some c1 ∧
      chip8_execute_next_instruction r2 c1 = some c2 ∧
      c1.I = chip.I ∧ c1.memory = chip.memory ∧ c1.V x = chip.V x ∧ c1.V y = chip.V y ∧
      c2.display = chip.display ∧
      ((∀ i j, i < n → j < 8 → (chip.memory (chip.I + i) >>> (7 - j)) &&& 1 = 1 →
          chip.display ((chip.V x + j) % 64 + (chip.V y + i) % 32 * 64) = 0) →
        (∃ i j, i < n ∧ j < 8 ∧ (chip.memory (chip.I + i) >>> (7 - j)) &&& 1 = 1) →
        c1.V 0xF = 0 ∧ c2.V 0xF = 1 ∧
        ∀ i j, i < n → j < 8 → (chip.memory (chip.I + i) >>> (7 - j)) &&& 1 = 1 →
          c2.display ((chip.V x + j) % 64 + (chip.V y + i) % 32 * 64) = 0) := by
  have hxF : x ≠ 0xF := by omega
  have hyF : y ≠ 0xF := by omega
  obtain ⟨d1, vf1, e1, g1, g2, g3, g4, g5⟩ :=
    draw_step r1 chip x y n hx hy hn hhalt (by omega) hhi hlo hI hd
  obtain ⟨d2, vf2, e2, k1, k2, k3, k4, k5⟩ :=
    draw_step r2 { chip with
        pc := chip.pc + 2, display := d1, V := upd chip.V 0xF vf1, draw := true }
      x y n hx hy hn hhalt (by simpa using hpc) hhi2 (by simpa using hlo2) hI g1
  simp only [upd_ne hxF, upd_ne hyF, upd_upd] at e2 k2 k3 k4 k5
  have hdisp : d2 = chip.display := by
    funext p
    by_cases hp : ∃ i j, i < n ∧ j < 8 ∧ p = pixel_pos (chip.V x) (chip.V y) i j
    · obtain ⟨i, j, hi, hj, rfl⟩ := hp
      rw [k2 i j hi hj, g2 i j hi hj, Nat.xor_assoc, Nat.xor_self, Nat.xor_zero]
    · have hp' : ∀ i j, i < n → j < 8 → p ≠ pixel_pos (chip.V x) (chip.V y) i j :=
        fun i j hi hj h => hp ⟨i, j, hi, hj, h⟩
      rw [k3 p hp', g3 p hp']
  refine ⟨_, _, e1, e2, rfl, rfl, ?_, ?_, ?_, ?_⟩
  · simp only [upd_ne hxF]
  · simp only [upd_ne hyF]
  · exact hdisp
  · intro hclear ⟨i, j, hi, hj, hbit⟩
    simp only [upd_same]
    refine ⟨?_, ?_, ?_⟩
    · apply g5
      rintro ⟨i', j', hi', hj', hb', hd'⟩
      apply hd'
      have := hclear i' j' hi' hj' ((sprite_bit_ne_zero _ _).1 hb')
      simpa only [pixel_pos] using this
    · apply k4
      refine ⟨i, j, hi, hj, ?_, ?_⟩
      · simp only [sprite_bit, hbit]; omega
      · rw [g2 i j hi hj]
        have h0 : chip.display (pixel_pos (chip.V x) (chip.V y) i j) = 0 := by
          simpa only [pixel_pos] using hclear i j hi hj hbit
        have h1 : sprite_bit (chip.memory (chip.I + i)) j = 1 := by
          simpa only [sprite_bit] using hbit
        rw [h0, h1]
        decide
    · intro i' j' hi' hj' hb'
      rw [hdisp]
      exact hclear i' j' hi' hj' hb'

/-- Witness of C5: the all-ones sprite `0xFF`, one row, drawn twice at
`(10, 5)` on a blank display (opcode `D121`). -/
theorem double_draw_restores_witness :
    ∃ c1 c2, chip8_execute_next_instruction 0 example_double_draw = some c1 ∧
      chip8_execute_next_instruction 0 c1 = some c2 ∧
      c1.I = example_double_draw.I ∧ c1.memory = example_double_draw.memory ∧
      c1.V 1 = example_double_draw.V 1 ∧ c1.V 2 = example_double_draw.V 2 ∧
      c2.display = example_double_draw.display ∧
      ((∀ i j, i < 1 → j < 8 →
          (example_double_draw.memory (example_double_draw.I + i) >>> (7 - j)) &&& 1 = 1 →
          example_double_draw.display
            ((example_double_draw.V 1 + j) % 64 + (example_double_draw.V 2 + i) % 32 * 64) = 0) →
        (∃ i j, i < 1 ∧ j < 8 ∧
          (example_double_draw.memory (example_double_draw.I + i) >>> (7 - j)) &&& 1 = 1) →
        c1.V 0xF = 0 ∧ c2.V 0xF = 1 ∧
        ∀ i j, i < 1 → j < 8 →
          (example_double_draw.memory (example_double_draw.I + i) >>> (7 - j)) &&& 1 = 1 →
          c2.display
            ((example_double_draw.V 1 + j) % 64 + (example_double_draw.V 2 + i) % 32 * 64) = 0) :=
  double_draw_restores 0 0 example_double_draw 1 2 1 (by decide) (by decide) (by decide) rfl
    (by decide) rfl rfl rfl rfl (by decide) (fun _ => Nat.zero_lt_succ _)

/-! ## Wait for a key (C6) -/

/-- The wait-for-key instruction Fx0A with `x` in 1..15: the step stores `x` in
`halt_reg`; every further step returns the state unchanged; a key-down event
for key `k` writes `k` in `Vx` and clears `halt_reg`. -/
theorem wait_key_nonzero_register (rnd : Nat) (chip : chip8) (x : Nat)
    (hx0 : 0 < x) (hx : x < 16)
    (hhalt : chip.halt_reg = 0) (hpc : chip.pc + 1 < 0x1000)
    (hhi : chip.memory chip.pc = 0xF0 + x) (hlo : chip.memory (chip.pc + 1) = 0x0A) :
    chip8_execute_next_instruction rnd chip =
        some { chip with pc := chip.pc + 2, halt_reg := x } ∧
      (∀ r, chip8_execute_next_instruction r { chip with pc := chip.pc + 2, halt_reg := x } =
        some { chip with pc := chip.pc + 2, halt_reg := x }) ∧
      (∀ k, k < 16 →
        key_event k true { chip with pc := chip.pc + 2, halt_reg := x } =
          some { chip with
            pc := chip.pc + 2, keys := upd chip.keys k true, V := upd chip.V x k,
            halt_reg := 0 }) := by
  refine ⟨?_, ?_, ?_⟩
  · rw [step_decode rnd chip 0xF x 0 0xA (by omega) hx (by omega) (by omega) hhalt hpc
      (by omega) (by omega)]
    simp [dispatch, misc]
  · intro r
    have : x ≠ 0 := by omega
    simp [chip8_execute_next_instruction, this]
  · intro k hk
    have : x ≠ 0 := by omega
    simp [key_event, hk, this, hx]

/-- C6, the code at the failing input `F00A`: the instruction stores `x = 0` in
`halt_reg`, which is the value that means "not waiting"; without any key
event the next call executes `6005`, so `pc` and `V0` change. -/
theorem wait_key_v0_does_not_wait :
    ∃ c1 c2, chip8_execute_next_instruction 0 example_wait_v0 = some c1 ∧
      c1.halt_reg = 0 ∧ c1.pc = 0x202 ∧ c1.V 0 = 0 ∧
      chip8_execute_next_instruction 0 c1 = some c2 ∧
      c2.pc = 0x204 ∧ c2.V 0 = 5 ∧ c2.pc ≠ c1.pc ∧ c2.V 0 ≠ c1.V 0 :=
  ⟨_, _, rfl, rfl, rfl, rfl, rfl, rfl, rfl, by decide, by decide⟩

/-! ## Timer tick (C7) -/

/-- C7 (timer tick): for every state whose timers are bytes,
`chip8_update_timers` leaves `dt - 1` in `dt` if `dt > 0` and 0 if `dt = 0`,
the same for `st` (no wrap to 255), sets `beep` exactly when `st` was 1 and
leaves it as it was otherwise, and changes no other field.  In particular,
from `st = 1` with `beep` clear the first tick gives `st = 0` and `beep` set,
and a second tick, after the consumer cleared `beep`, leaves `st = 0` and
`beep` clear. -/
theorem update_timers_spec (chip : chip8) (hdt : chip.dt < 256) (hst : chip.st < 256) :
    chip8_update_timers chip =
      { chip with
        dt := if chip.dt > 0 then chip.dt - 1 else 0,
        st := if chip.st > 0 then chip.st - 1 else 0,
        beep := if chip.st = 1 then true else chip.beep } ∧
    (chip.st = 1 → chip.beep = false →
      (chip8_update_timers chip).st = 0 ∧ (chip8_update_timers chip).beep = true ∧
      (chip8_update_timers { chip8_update_timers chip with beep := false }).st = 0 ∧
      (chip8_update_timers { chip8_update_timers chip with beep := false }).beep = false) := by
  have key : ∀ c : chip8, c.dt < 256 → c.st < 256 → chip8_update_timers c =
      { c with
        dt := if c.dt > 0 then c.dt - 1 else 0,
        st := if c.st > 0 then c.st - 1 else 0,
        beep := if c.st = 1 then true else c.beep } := by
    intro c hd hs
    rcases c with ⟨m, V, I, dt, st, stack, sp, display, keys, pc, beep, draw, halt_reg⟩
    simp only at hd hs ⊢
    have d1 : (dt - 1) % 256 = dt - 1 := by omega
    have s1 : (st - 1) % 256 = st - 1 := by omega
    unfold chip8_update_timers
    by_cases hd0 : dt = 0 <;> by_cases hs0 : st = 0
    · simp [hd0, hs0]
    · by_cases hs1 : st = 1
      · simp [hd0, hs0, hs1]
      · have : st - 1 ≠ 0 := by omega
        have : 0 < st := by omega
        simp [hd0, hs0, hs1, s1, *]
    · have : 0 < dt := by omega
      simp [hd0, hs0, d1, *]
    · have : 0 < dt := by omega
      by_cases hs1 : st = 1
      · simp [hd0, hs0, hs1, d1, *]
      · have : st - 1 ≠ 0 := by omega
        have : 0 < st := by omega
        simp [hd0, hs0, hs1, s1, d1, *]
  refine ⟨key chip hdt hst, ?_⟩
  intro h1 hb
  rw [key chip hdt hst]
  have hd2 : (if chip.dt > 0 then chip.dt - 1 else 0) < 256 := by split <;> omega
  rw [key _ (by simpa using hd2) (by simp [h1])]
  simp [h1]

/-- Witness of C7: a tick from `dt = 7`, `st = 1`. -/
theorem update_timers_spec_witness :
    chip8_update_timers example_timers =
      { example_timers with
        dt := if example_timers.dt > 0 then example_timers.dt - 1 else 0,
        st := if example_timers.st > 0 then example_timers.st - 1 else 0,
        beep := if example_timers.st = 1 then true else example_timers.beep } ∧
    (example_timers.st = 1 → example_timers.beep = false →
      (chip8_update_timers example_timers).st = 0 ∧
      (chip8_update_timers example_timers).beep = true ∧
      (chip8_update_timers { chip8_update_timers example_timers with beep := false }).st = 0 ∧
      (chip8_update_timers { chip8_update_timers example_timers with beep := false }).beep
        = false) :=
  update_timers_spec example_timers (by decide) (by decide)

/-! ## End-to-end glyph draw (C8) -/

/-- The end-to-end glyph draw when the display block returned by `malloc` is
clear and `halt_reg` is 0, whatever the other uninitialised fields hold: the
four steps give `V0 = 10`, `V1 = 5`, `I = 0`, `pc = 0x208`, `VF = 0`, `draw`
set, the pixel `(10 + j, 5 + i)` equal to bit `7 - j` of the `i`-th byte of
the glyph of `0`, and every other pixel 0. -/
theorem glyph_draw_from_clear_blocks (chip : chip8) (new_memory : Nat → Nat)
    (r1 r2 r3 r4 : Nat) (hhalt : chip.halt_reg = 0) :
    ∃ c0 c4, chip8_init chip new_memory (fun _ => 0) glyph_program false = some c0 ∧
      chip8_run [r1, r2, r3, r4] c0 = some c4 ∧
      c4.V 0 = 10 ∧ c4.V 1 = 5 ∧ c4.I = 0 ∧ c4.pc = 0x208 ∧ c4.V 0xF = 0 ∧ c4.draw = true ∧
      (∀ i j, i < 5 → j < 8 →
        c4.display ((10 + j) + (5 + i) * 64) = (chip8_font.getD i 0 >>> (7 - j)) &&& 1) ∧
      (∀ p, p < 64 * 32 → (¬ ∃ i j, i < 5 ∧ j < 8 ∧ p = (10 + j) + (5 + i) * 64) →
        c4.display p = 0) := by
  obtain ⟨c0, hc0, hm0, hm1, hm2, hm3, hm4, hm5, hm6, hm7, hfont, hpc0, hI0, hd0, hh0⟩ :
      ∃ c0, chip8_init chip new_memory (fun _ => 0) glyph_program false = some c0 ∧
        c0.memory 0x200 = 0x60 ∧ c0.memory 0x201 = 0x0A ∧ c0.memory 0x202 = 0x61 ∧
        c0.memory 0x203 = 0x05 ∧ c0.memory 0x204 = 0xA0 ∧ c0.memory 0x205 = 0x00 ∧
        c0.memory 0x206 = 0xD0 ∧ c0.memory 0x207 = 0x15 ∧
        (∀ i, i < 5 → c0.memory i = chip8_font.getD i 0) ∧
        c0.pc = 0x200 ∧ c0.I = 0 ∧ c0.display = (fun _ => 0) ∧ c0.halt_reg = 0 := by
    refine ⟨_, rfl, rfl, rfl, rfl, rfl, rfl, rfl, rfl, rfl, ?_, rfl, rfl, rfl, hhalt⟩
    intro i hi
    have h80 : i < chip8_font.length := by
      have : chip8_font.length = 80 := rfl
      omega
    simp only [h80, if_true]
  have e1 : chip8_execute_next_instruction r1 c0 =
      some { c0 with pc := 0x202, V := upd c0.V 0 10 } := by
    rw [step_decode r1 c0 6 0 0 0xA (by omega) (by omega) (by omega) (by omega) hh0
      (by omega) (by rw [hpc0, hm0]) (by rw [hpc0, hm1])]
    simp [dispatch, hpc0]
  have e2 : chip8_execute_next_instruction r2 { c0 with pc := 0x202, V := upd c0.V 0 10 } =
      some { c0 with pc := 0x204, V := upd (upd c0.V 0 10) 1 5 } := by
    rw [step_decode r2 { c0 with pc := 0x202, V := upd c0.V 0 10 } 6 1 0 5 (by omega)
      (by omega) (by omega) (by omega) hh0 (by simp) (by simp [hm2]) (by simp [hm3])]
    simp [dispatch]
  have e3 : chip8_execute_next_instruction r3
        { c0 with pc := 0x204, V := upd (upd c0.V 0 10) 1 5 } =
      some { c0 with pc := 0x206, V := upd (upd c0.V 0 10) 1 5, I := 0 } := by
    rw [step_decode r3 { c0 with pc := 0x204, V := upd (upd c0.V 0 10) 1 5 } 0xA 0 0 0
      (by omega) (by omega) (by omega) (by omega) hh0 (by simp) (by simp [hm4])
      (by simp [hm5])]
    simp [dispatch]
  obtain ⟨d', vf', e4, g1, g2, g3, g4, g5⟩ :=
    draw_step r4 { c0 with pc := 0x206, V := upd (upd c0.V 0 10) 1 5, I := 0 } 0 1 5
      (by omega) (by omega) (by omega) hh0 (by simp) (by simp [hm6]) (by simp [hm7])
      (by simp) (by simp [hd0])
  have hV0 : upd (upd c0.V 0 10) 1 5 0 = 10 := by simp [upd]
  have hV1 : upd (upd c0.V 0 10) 1 5 1 = 5 := by simp [upd]
  simp only [hV0, hV1, hd0, Nat.zero_add] at g2 g3 g4 g5
  simp only at e4
  have hvf : vf' = 0 := by
    apply g5
    rintro ⟨i, j, _, _, _, h⟩
    exact h rfl
  have erun : chip8_run [r1, r2, r3, r4] c0 =
      some { c0 with
        pc := 0x206 + 2, display := d', V := upd (upd (upd c0.V 0 10) 1 5) 0xF vf', I := 0,
        draw := true } := by
    simp only [chip8_run, List.foldlM_cons, List.foldlM_nil, e1, e2, e3, e4,
      Option.bind_eq_bind, Option.some_bind, Option.pure_def]
  refine ⟨c0, _, hc0, erun, ?_, ?_, rfl, rfl, ?_, rfl, ?_, ?_⟩
  · simp [upd]
  · simp [upd]
  · simp [hvf]
  · intro i j hi hj
    have := g2 i j hi hj
    simp only [pixel_pos, sprite_bit, hfont i hi, Nat.zero_xor] at this
    have hp : (10 + j) % 64 + (5 + i) % 32 * 64 = 10 + j + (5 + i) * 64 := by omega
    rw [← hp]
    exact this
  · intro p hp hno
    apply g3
    intro i j hi hj h
    apply hno
    refine ⟨i, j, hi, hj, ?_⟩
    simp only [pixel_pos] at h
    omega

/-- C8, the code at two failing inputs.  `chip8_init` leaves the display block
and `halt_reg` as `malloc` returned them.  First: with the byte of pixel
`(0, 0)` at 1 in the display block, the four steps leave that pixel, which is
outside the glyph, at 1.  Second: with `halt_reg = 1` in the structure, the
four steps do nothing (`V0 = 0`, `pc = 0x200`, `draw` clear). -/
theorem glyph_draw_uninitialised :
    (∃ c0 c4, chip8_init (machine_with []) (fun _ => 0) dirty_block glyph_program false = some c0 ∧
      chip8_run [0, 0, 0, 0] c0 = some c4 ∧ c4.display (0 + 0 * 64) = 1) ∧
    (∃ c0 c4, chip8_init { machine_with [] with halt_reg := 1 } (fun _ => 0) (fun _ => 0)
        glyph_program false = some c0 ∧
      chip8_run [0, 0, 0, 0] c0 = some c4 ∧ c4.V 0 = 0 ∧ c4.pc = 0x200 ∧ c4.draw = false) :=
  ⟨⟨_, _, rfl, rfl, rfl⟩, ⟨_, _, rfl, rfl, rfl, rfl, rfl⟩⟩

/-! ## Sprite draw (C9) -/

/-- C9 (sprite draw, opcode Dxyn): in a machine that is not waiting, with `x`
and `y` different from 0xF, `n` in 0..15, `I + n <= 0x1000`, `Vx = a`,
`Vy = b` and a display of 0/1 pixels, the step succeeds and: the pixel at
column `c`, row `r` becomes its old value XOR bit `7 - j` of `memory[I + i]`
when `c = (a + j) mod 64` and `r = (b + i) mod 32` for some `i < n`, `j < 8`,
and keeps its value when there is no such `i`, `j`; no pixel is hit by two
sprite bits; `VF = 1` if a sprite bit equal to 1 lands on a pixel that was 1,
and `VF = 0` otherwise; `draw` is set; the memory, `I` and every register
other than `VF` are unchanged. -/
theorem draw_sprite_spec (rnd : Nat) (chip : chip8) (x y n a b : Nat)
    (hx : x < 15) (hy : y < 15) (hn : n ≤ 15)
    (hhalt : chip.halt_reg = 0) (hpc : chip.pc + 1 < 0x1000)
    (hhi : chip.memory chip.pc = 0xD0 + x) (hlo : chip.memory (chip.pc + 1) = 16 * y + n)
    (hI : chip.I + n ≤ 0x1000) (ha : chip.V x = a) (hb : chip.V y = b)
    (hpix : ∀ p, chip.display p ≤ 1) :
    ∃ chip', chip8_execute_next_instruction rnd chip = some chip' ∧
      (∀ c r, c < 64 → r < 32 →
        (∀ i j, i < n → j < 8 → c = (a + j) % 64 → r = (b + i) % 32 →
          chip'.display (c + r * 64) =
            chip.display (c + r * 64) ^^^ ((chip.memory (chip.I + i) >>> (7 - j)) &&& 1)) ∧
        ((¬ ∃ i j, i < n ∧ j < 8 ∧ c = (a + j) % 64 ∧ r = (b + i) % 32) →
          chip'.display (c + r * 64) = chip.display (c + r * 64))) ∧
      (∀ i j i' j', i < n → j < 8 → i' < n → j' < 8 →
        (a + j) % 64 = (a + j') % 64 → (b + i) % 32 = (b + i') % 32 → i = i' ∧ j = j') ∧
      ((∃ i j, i < n ∧ j < 8 ∧ (chip.memory (chip.I + i) >>> (7 - j)) &&& 1 = 1 ∧
          chip.display ((a + j) % 64 + (b + i) % 32 * 64) = 1) → chip'.V 0xF = 1) ∧
      ((¬ ∃ i j, i < n ∧ j < 8 ∧ (chip.memory (chip.I + i) >>> (7 - j)) &&& 1 = 1 ∧
          chip.display ((a + j) % 64 + (b + i) % 32 * 64) = 1) → chip'.V 0xF = 0) ∧
      chip'.draw = true ∧ chip'.memory = chip.memory ∧ chip'.I = chip.I ∧
      (∀ r, r ≠ 0xF → chip'.V r = chip.V r) := by
  obtain ⟨d', vf', e, h1, h2, h3, h4, h5⟩ :=
    draw_step rnd chip x y n hx hy hn hhalt hpc hhi hlo hI (fun p => by have := hpix p; omega)
  rw [ha, hb] at h2 h3 h4 h5
  refine ⟨_, e, ?_, ?_, ?_, ?_, rfl, rfl, rfl, ?_⟩
  · intro c r hc hr
    constructor
    · intro i j hi hj hci hri
      have := h2 i j hi hj
      simp only [pixel_pos, sprite_bit] at this
      rw [hci, hri]
      exact this
    · intro hno
      apply h3
      intro i j hi hj hp
      apply hno
      refine ⟨i, j, hi, hj, ?_, ?_⟩ <;> simp only [pixel_pos] at hp <;> omega
  · intro i j i' j' hi hj hi' hj' hc hr
    omega
  · rintro ⟨i, j, hi, hj, hbit, hdisp⟩
    simp only [upd_same]
    apply h4
    refine ⟨i, j, hi, hj, ?_, ?_⟩
    · simp only [sprite_bit, hbit]; omega
    · simp only [pixel_pos, hdisp]; omega
  · intro hno
    simp only [upd_same]
    apply h5
    rintro ⟨i, j, hi, hj, hbit, hdisp⟩
    apply hno
    refine ⟨i, j, hi, hj, ?_, ?_⟩
    · exact (sprite_bit_ne_zero _ _).1 hbit
    · have := hpix (pixel_pos a b i j)
      simp only [pixel_pos] at this hdisp
      omega
  · intro r hr
    simp only [upd_ne hr]

/-- Witness of C9: the one-row sprite `0xA5` drawn at `(10, 5)` on a blank
display (opcode `D121`). -/
theorem draw_sprite_spec_witness :
    ∃ chip', chip8_execute_next_instruction 0 example_draw = some chip' ∧
      (∀ c r, c < 64 → r < 32 →
        (∀ i j, i < 1 → j < 8 → c = (10 + j) % 64 → r = (5 + i) % 32 →
          chip'.display (c + r * 64) =
            example_draw.display (c + r * 64) ^^^
              ((example_draw.memory (example_draw.I + i) >>> (7 - j)) &&& 1)) ∧
        ((¬ ∃ i j, i < 1 ∧ j < 8 ∧ c = (10 + j) % 64 ∧ r = (5 + i) % 32) →
          chip'.display (c + r * 64) = example_draw.display (c + r * 64))) ∧
      (∀ i j i' j', i < 1 → j < 8 → i' < 1 → j' < 8 →
        (10 + j) % 64 = (10 + j') % 64 → (5 + i) % 32 = (5 + i') % 32 → i = i' ∧ j = j') ∧
      ((∃ i j, i < 1 ∧ j < 8 ∧
          (example_draw.memory (example_draw.I + i) >>> (7 - j)) &&& 1 = 1 ∧
          example_draw.display ((10 + j) % 64 + (5 + i) % 32 * 64) = 1) → chip'.V 0xF = 1) ∧
      ((¬ ∃ i j, i < 1 ∧ j < 8 ∧
          (example_draw.memory (example_draw.I + i) >>> (7 - j)) &&& 1 = 1 ∧
          example_draw.display ((10 + j) % 64 + (5 + i) % 32 * 64) = 1) → chip'.V 0xF = 0) ∧
      chip'.draw = true ∧ chip'.memory = example_draw.memory ∧ chip'.I = example_draw.I ∧
      (∀ r, r ≠ 0xF → chip'.V r = example_draw.V r) :=
  draw_sprite_spec 0 example_draw 1 2 1 10 5 (by decide) (by decide) (by decide) rfl
    (by decide) rfl rfl (by decide) rfl rfl (fun _ => Nat.zero_le _)

/-! ## Undefined opcodes (C10) -/

/-- C10 (undefined opcodes are no-ops): in a machine that is not waiting, if
the 16-bit opcode at `pc` matches no row of the dispatch table
(`is_undefined`), `chip8_execute_next_instruction` returns the state with
`pc` advanced by 2 and every other field unchanged. -/
theorem undefined_opcode_noop (rnd : Nat) (chip : chip8) (op : Nat) (hop : op < 0x10000)
    (hhalt : chip.halt_reg = 0) (hpc : chip.pc + 1 < 0x1000)
    (hhi : chip.memory chip.pc = op / 0x100) (hlo : chip.memory (chip.pc + 1) = op % 0x100)
    (hu : is_undefined op) :
    chip8_execute_next_instruction rnd chip = some { chip with pc := chip.pc + 2 } := by
  rw [step_decode rnd chip (op / 0x1000) (op / 0x100 % 0x10) (op / 0x10 % 0x10) (op % 0x10)
    (by omega) (by omega) (by omega) (by omega) hhalt hpc (by omega) (by omega)]
  have e1 : 256 * (op / 0x100 % 0x10) + 16 * (op / 0x10 % 0x10) + op % 0x10 = op % 0x1000 := by
    omega
  have e2 : 16 * (op / 0x10 % 0x10) + op % 0x10 = op % 0x100 := by omega
  rw [e1, e2]
  unfold is_undefined at hu
  generalize op / 0x1000 = fam at *
  generalize op % 0x1000 = nnn at *
  generalize op % 0x100 = nn at *
  generalize op % 0x10 = n at *
  rcases hu with ⟨h1, h2, h3⟩ | ⟨h1 | h1, h2⟩ | ⟨h1, h2⟩ | ⟨h1, h2, h3⟩ | ⟨h1, h2⟩
  · subst h1
    simp [dispatch, h2, h3]
  · subst h1
    simp [dispatch, h2]
  · subst h1
    simp [dispatch, h2]
  · subst h1
    rcases h2 with h | h | h | h | h | h | h <;> subst h <;> simp [dispatch, alu]
  · subst h1
    simp [dispatch, h2, h3]
  · subst h1
    obtain ⟨g1, g2, g3, g4, g5, g6, g7, g8, g9⟩ := h2
    simp [dispatch, misc, g1, g2, g3, g4, g5, g6, g7, g8, g9]

/-- Witness of C10: the opcode `5123` (family 5 with a low nibble other than 0). -/
theorem undefined_opcode_noop_witness :
    chip8_execute_next_instruction 0 (machine_with [0x51, 0x23]) =
      some { machine_with [0x51, 0x23] with pc := (machine_with [0x51, 0x23]).pc + 2 } :=
  undefined_opcode_noop 0 (machine_with [0x51, 0x23]) 0x5123 (by decide) rfl (by decide)
    rfl rfl (by decide)

/-! ## Initialisation layout (C11) -/

/-- The memory after `main` has loaded an image that fits between the load
address and 0x1000: the font table at 0x000..0x04F, the image from the load
address on, and at every other address the content of the block returned by
`malloc`. -/
theorem init_layout_when_it_fits (chip : chip8) (new_memory new_display : Nat → Nat)
    (file : List Nat) (eti660 : Bool)
    (hfit : (if eti660 then 0x660 else 0x200) + file.length ≤ 0x1000) :
    ∃ c0, main_load chip new_memory new_display file eti660 = some c0 ∧
      ∀ a, c0.memory a =
        if a < 80 then chip8_font.getD a 0
        else if (if eti660 then 0x660 else 0x200) ≤ a ∧
            a < (if eti660 then 0x660 else 0x200) + file.length then
          file.getD (a - (if eti660 then 0x660 else 0x200)) 0
        else new_memory a := by
  have hlen : min file.length 0x1000 = file.length := by
    have : file.length ≤ 0x1000 := by split at hfit <;> omega
    omega
  have htake : file.take (min file.length 0x1000) = file := by
    rw [hlen, List.take_length]
  have e : main_load chip new_memory new_display file eti660 =
      chip8_init chip new_memory new_display file eti660 := by
    unfold main_load
    simp only [htake]
  rw [e]
  unfold chip8_init
  simp only [hfit, if_true]
  refine ⟨_, rfl, ?_⟩
  intro a
  have h80 : chip8_font.length = 80 := rfl
  simp only [h80]

/-- C11, the code at two failing inputs.  First: an image of 0xE01 bytes in
standard mode is longer than `0x1000 - 0x200`; `main` cuts images at 0x1000
bytes, not at `0x1000 - 0x200`, so the `memcpy` of `chip8_init` writes up to
address 0x1000 included, outside the memory block (the embedding returns
`none`).  Second: `chip8_init` does not clear the memory block; with the byte
`0xCD` in every byte of the block returned by `malloc`, address 0x100, which is
neither font nor program, holds `0xCD` after initialisation, not 0. -/
theorem init_layout_defects :
    main_load (machine_with []) (fun _ => 0) (fun _ => 0) (List.replicate 0xE01 0xAA) false =
      none ∧
    (∃ c0, main_load (machine_with []) (fun _ => 0xCD) (fun _ => 0) [0x12, 0x00] false =
        some c0 ∧ c0.memory 0x100 = 0xCD ∧ c0.memory 0x100 ≠ 0) := by
  refine ⟨?_, _, rfl, rfl, by decide⟩
  have hlen : ((List.replicate 0xE01 0xAA).take (min (List.replicate 0xE01 0xAA).length 0x1000)).length
      = 0xE01 := by
    rw [List.length_take, List.length_replicate]
    decide
  unfold main_load chip8_init
  simp only [hlen]
  rfl

/-! ## Key events (C12) -/

/-- C12 (key events): for every state whose `halt_reg` is a register index, every
key index `k` in 0..15 and every `is_down`, the event succeeds, sets
`keys[k] = is_down` and leaves the other keys; if `is_down` is true and the
latch is set (`halt_reg` not 0, destination register `halt_reg`), the
destination register receives `k`, the latch is cleared and the other
registers keep their value; if `is_down` is false or the latch is not set, no
register and not the latch changes; a second key-down event delivered after a
key-down changes no register; the memory, the display, `pc`, `I`, the stack
and the timers are never touched. -/
theorem key_event_spec (chip : chip8) (k : Nat) (is_down : Bool) (hk : k < 16)
    (hreg : chip.halt_reg < 16) :
    ∃ chip', key_event k is_down chip = some chip' ∧
      chip'.keys k = is_down ∧ (∀ i, i ≠ k → chip'.keys i = chip.keys i) ∧
      (is_down = true → chip.halt_reg ≠ 0 →
        chip'.V chip.halt_reg = k ∧ chip'.halt_reg = 0 ∧
        (∀ r, r ≠ chip.halt_reg → chip'.V r = chip.V r)) ∧
      ((is_down = false ∨ chip.halt_reg = 0) →
        chip'.V = chip.V ∧ chip'.halt_reg = chip.halt_reg) ∧
      (∀ k2, k2 < 16 → is_down = true → ∃ chip2, key_event k2 true chip' = some chip2 ∧
        chip2.V = chip'.V ∧ chip2.halt_reg = 0) ∧
      chip'.memory = chip.memory ∧ chip'.display = chip.display ∧ chip'.pc = chip.pc ∧
      chip'.I = chip.I ∧ chip'.sp = chip.sp ∧ chip'.stack = chip.stack ∧
      chip'.dt = chip.dt ∧ chip'.st = chip.st := by
  by_cases hres : is_down = true ∧ chip.halt_reg ≠ 0
  · obtain ⟨hd, hh⟩ := hres
    refine ⟨{ chip with
      keys := upd chip.keys k is_down, V := upd chip.V chip.halt_reg k, halt_reg := 0 },
      ?_, ?_, ?_, ?_, ?_, ?_, rfl, rfl, rfl, rfl, rfl, rfl, rfl, rfl⟩
    · simp [key_event, hk, hd, hh, hreg]
    · simp
    · intro i hi
      simp only [upd_ne hi]
    · intro _ _
      refine ⟨by simp, rfl, ?_⟩
      intro r hr
      simp only [upd_ne hr]
    · rintro (h | h)
      · rw [hd] at h; cases h
      · exact absurd h hh
    · intro k2 hk2 _
      refine ⟨{ chip with
        keys := upd (upd chip.keys k is_down) k2 true, V := upd chip.V chip.halt_reg k,
        halt_reg := 0 }, ?_, rfl, rfl⟩
      simp [key_event, hk2]
  · have hres' : ¬ (is_down = true ∧ chip.halt_reg ≠ 0) := hres
    refine ⟨{ chip with keys := upd chip.keys k is_down }, ?_, ?_, ?_, ?_, ?_, ?_, rfl, rfl, rfl,
      rfl, rfl, rfl, rfl, rfl⟩
    · simp only [key_event, hk, if_true, hres', if_false]
    · simp
    · intro i hi
      simp only [upd_ne hi]
    · intro hd hh
      exact absurd ⟨hd, hh⟩ hres
    · intro _
      exact ⟨rfl, rfl⟩
    · intro k2 hk2 hd
      have hh : chip.halt_reg = 0 := by
        by_contra h
        exact hres ⟨hd, h⟩
      refine ⟨{ chip with keys := upd (upd chip.keys k is_down) k2 true }, ?_, rfl, hh⟩
      simp [key_event, hk2, hh]

/-- Witness of C12: key 7 goes down while the machine waits with destination
`V3`. -/
theorem key_event_spec_witness :
    ∃ chip', key_event 7 true example_waiting = some chip' ∧
      chip'.keys 7 = true ∧ (∀ i, i ≠ 7 → chip'.keys i = example_waiting.keys i) ∧
      (true = true → example_waiting.halt_reg ≠ 0 →
        chip'.V example_waiting.halt_reg = 7 ∧ chip'.halt_reg = 0 ∧
        (∀ r, r ≠ example_waiting.halt_reg → chip'.V r = example_waiting.V r)) ∧
      ((true = false ∨ example_waiting.halt_reg = 0) →
        chip'.V = example_waiting.V ∧ chip'.halt_reg = example_waiting.halt_reg) ∧
      (∀ k2, k2 < 16 → true = true → ∃ chip2, key_event k2 true chip' = some chip2 ∧
        chip2.V = chip'.V ∧ chip2.halt_reg = 0) ∧
      chip'.memory = example_waiting.memory ∧ chip'.display = example_waiting.display ∧
      chip'.pc = example_waiting.pc ∧ chip'.I = example_waiting.I ∧
      chip'.sp = example_waiting.sp ∧ chip'.stack = example_waiting.stack ∧
      chip'.dt = example_waiting.dt ∧ chip'.st = example_waiting.st :=
  key_event_spec example_waiting 7 true (by decide) (by decide)

/-! ## Clear screen (C13) -/

/-- C13 (clear screen, opcode 00E0): in a machine that is not waiting whose next
opcode is 00E0, the step succeeds; afterwards every one of the 64 * 32 pixels
is 0, `draw` is set, `pc` has advanced by 2, and the registers, `I`, `sp`, the
stack, the timers and the memory are unchanged. -/
theorem clear_screen_spec (rnd : Nat) (chip : chip8)
    (hhalt : chip.halt_reg = 0) (hpc : chip.pc + 1 < 0x1000)
    (hhi : chip.memory chip.pc = 0x00) (hlo : chip.memory (chip.pc + 1) = 0xE0) :
    ∃ chip', chip8_execute_next_instruction rnd chip = some chip' ∧
      (∀ p, p < 64 * 32 → chip'.display p = 0) ∧ chip'.draw = true ∧
      chip'.pc = chip.pc + 2 ∧ chip'.V = chip.V ∧ chip'.I = chip.I ∧ chip'.sp = chip.sp ∧
      chip'.stack = chip.stack ∧ chip'.dt = chip.dt ∧ chip'.st = chip.st ∧
      chip'.memory = chip.memory := by
  rw [step_decode rnd chip 0 0 0xE 0 (by omega) (by omega) (by omega) (by omega) hhalt hpc
    (by simpa using hhi) (by simpa using hlo)]
  refine ⟨_, rfl, ?_, rfl, rfl, rfl, rfl, rfl, rfl, rfl, rfl, rfl⟩
  intro p hp
  simp only [hp, if_true]

/-- Witness of C13: `00E0` on a display with every pixel set. -/
theorem clear_screen_spec_witness :
    ∃ chip', chip8_execute_next_instruction 0 example_clear = some chip' ∧
      (∀ p, p < 64 * 32 → chip'.display p = 0) ∧ chip'.draw = true ∧
      chip'.pc = example_clear.pc + 2 ∧ chip'.V = example_clear.V ∧
      chip'.I = example_clear.I ∧ chip'.sp = example_clear.sp ∧
      chip'.stack = example_clear.stack ∧ chip'.dt = example_clear.dt ∧
      chip'.st = example_clear.st ∧ chip'.memory = example_clear.memory :=
  clear_screen_spec 0 example_clear rfl (by decide) rfl rfl

/-! ## Stack pointer (C14) -/

/-- C14, counterexample: `sp` does not wrap in 4 bits.  Sixteen nested calls from
the initial state leave `sp = 255`, outside 0..15; a call with `sp = 0`
leaves `sp = 255`, not 15; and the return executed in the initial state
(`sp = 15`, empty stack) increments `sp` to 16 and reads `stack[16]`, outside
the 16 entries (the embedding returns `none`), instead of leaving `sp = 0` and
loading `pc` from `stack[0]`. -/
theorem sp_leaves_four_bits :
    (∃ c0 c16, chip8_init (machine_with []) (fun _ => 0) (fun _ => 0) sixteen_calls false = some c0 ∧
      chip8_run (List.replicate 16 0) c0 = some c16 ∧ c16.sp = 255 ∧ ¬ c16.sp < 16) ∧
    (∃ c1, chip8_execute_next_instruction 0 example_call = some c1 ∧
      example_call.sp = 0 ∧ c1.sp = 255 ∧ c1.sp ≠ 15) ∧
    (∃ c0, chip8_init (machine_with []) (fun _ => 0) (fun _ => 0) [0x00, 0xEE] false = some c0 ∧
      c0.sp = 15 ∧ chip8_execute_next_instruction 0 c0 = none) :=
  ⟨⟨_, _, rfl, rfl, rfl, by decide⟩, ⟨_, rfl, rfl, rfl, by decide⟩, ⟨_, rfl, rfl, rfl⟩⟩

/-- C14, amended (`sp` is an 8-bit counter, never masked): in a machine that is
not waiting, a call 2nnn with `sp` in 0..15 succeeds, writes `pc + 2` in
`stack[sp]` and no other entry, and leaves `sp - 1` modulo 256 in `sp`: 255
when `sp` was 0, `sp - 1` otherwise; a return 00EE for which `sp + 1` modulo
256 is in 0..15 succeeds, writes no stack entry, leaves `sp + 1` modulo 256 in
`sp` and loads `pc` from that entry: from `sp = 255` it leaves `sp = 0` and
loads `pc` from `stack[0]`. -/
theorem sp_eight_bit_spec (rnd : Nat) (chip : chip8) (nnn : Nat)
    (hhalt : chip.halt_reg = 0) (hpc : chip.pc + 1 < 0x1000) (hnnn : nnn < 0x1000) :
    (chip.memory chip.pc = 0x20 + nnn / 0x100 → chip.memory (chip.pc + 1) = nnn % 0x100 →
      chip.sp < 16 →
      ∃ c', chip8_execute_next_instruction rnd chip = some c' ∧
        c'.stack = upd chip.stack chip.sp (chip.pc + 2) ∧ c'.sp = (chip.sp + 255) % 256 ∧
        c'.pc = nnn ∧ (chip.sp = 0 → c'.sp = 255) ∧ (0 < chip.sp → c'.sp = chip.sp - 1)) ∧
    (chip.memory chip.pc = 0x00 → chip.memory (chip.pc + 1) = 0xEE →
      (chip.sp + 1) % 256 < 16 →
      ∃ c', chip8_execute_next_instruction rnd chip = some c' ∧
        c'.stack = chip.stack ∧ c'.sp = (chip.sp + 1) % 256 ∧ c'.pc = chip.stack c'.sp ∧
        (chip.sp = 255 → c'.sp = 0 ∧ c'.pc = chip.stack 0) ∧
        (chip.sp < 15 → c'.sp = chip.sp + 1)) := by
  constructor
  · intro hhi hlo hsp
    rw [step_decode rnd chip 2 (nnn / 0x100) (nnn / 0x10 % 0x10) (nnn % 0x10) (by omega)
      (by omega) (by omega) (by omega) hhalt hpc (by omega) (by omega)]
    have : 256 * (nnn / 0x100) + 16 * (nnn / 0x10 % 0x10) + nnn % 0x10 = nnn := by omega
    refine ⟨{ chip with
      stack := upd chip.stack chip.sp (chip.pc + 2), sp := (chip.sp + 255) % 256, pc := nnn },
      ?_, rfl, rfl, rfl, ?_, ?_⟩
    · simp [dispatch, hsp, this]
    · intro h; simp only [h]
    · intro h; simp only; omega
  · intro hhi hlo hsp
    rw [step_decode rnd chip 0 0 0xE 0xE (by omega) (by omega) (by omega) (by omega) hhalt hpc
      (by simpa using hhi) (by simpa using hlo)]
    refine ⟨{ chip with
      pc := chip.stack ((chip.sp + 1) % 256), sp := (chip.sp + 1) % 256 },
      ?_, rfl, rfl, rfl, ?_, ?_⟩
    · simp [dispatch, hsp]
    · intro h; simp [h]
    · intro h; simp only; omega

/-- Witness of C14: the call `2204` with `sp = 0`, and the return `00EE` with
`sp = 255` and `stack[0] = 0x300`. -/
theorem sp_eight_bit_spec_witness :
    (∃ c', chip8_execute_next_instruction 0 example_call = some c' ∧
        c'.stack = upd example_call.stack example_call.sp (example_call.pc + 2) ∧
        c'.sp = (example_call.sp + 255) % 256 ∧ c'.pc = 0x204 ∧
        (example_call.sp = 0 → c'.sp = 255) ∧
        (0 < example_call.sp → c'.sp = example_call.sp - 1)) ∧
    (∃ c', chip8_execute_next_instruction 0 example_return = some c' ∧
        c'.stack = example_return.stack ∧ c'.sp = (example_return.sp + 1) % 256 ∧
        c'.pc = example_return.stack c'.sp ∧
        (example_return.sp = 255 → c'.sp = 0 ∧ c'.pc = example_return.stack 0) ∧
        (example_return.sp < 15 → c'.sp = example_return.sp + 1)) :=
  ⟨(sp_eight_bit_spec 0 example_call 0x204 rfl (by decide) (by decide)).1 rfl rfl (by decide),
   (sp_eight_bit_spec 0 example_return 0 rfl (by decide) (by decide)).2 rfl rfl (by decide)⟩

/-! ## Memory accesses through I (C15) -/

/-- C15, counterexample: the program `AFFF 60FF F01E F033` run from the initial
state reaches `I = 0x10FE` (a 16-bit value above 0xFFF) with `F033` as the
next opcode; this instruction writes `memory[0x10FE]`, outside the 0x1000-byte
memory (the embedding returns `none`): the address is neither masked nor
checked. -/
theorem bcd_outside_memory :
    ∃ c0 c3, chip8_init (machine_with []) (fun _ => 0) (fun _ => 0) bcd_past_memory false = some c0 ∧
      chip8_run [0, 0, 0] c0 = some c3 ∧ c3.I = 0x10FE ∧ c3.I < 0x10000 ∧
      c3.memory c3.pc = 0xF0 ∧ c3.memory (c3.pc + 1) = 0x33 ∧
      chip8_execute_next_instruction 0 c3 = none :=
  ⟨_, _, rfl, rfl, rfl, by decide, rfl, rfl, rfl⟩

/-- C15, amended (no instruction masks or checks `I`): in a machine that is not
waiting, the draw Dxyn accesses `memory[I + i]` for `i < n`, the bcd Fx33 for
`i < 3`, the store Fx55 and the load Fx65 for `i <= x`, with `I` used as it
is; each of these steps stays inside the arrays of the machine (returns a
state) exactly when every one of these `I + i` is below 0x1000. -/
theorem memory_access_through_I_spec (rnd : Nat) (chip : chip8) (x y n : Nat)
    (hx : x < 16) (hy : y < 16) (hn : n < 16)
    (hhalt : chip.halt_reg = 0) (hpc : chip.pc + 1 < 0x1000) :
    (chip.memory chip.pc = 0xD0 + x → chip.memory (chip.pc + 1) = 16 * y + n →
      ((chip8_execute_next_instruction rnd chip).isSome = true ↔
        ∀ i, i < n → chip.I + i < 0x1000)) ∧
    (chip.memory chip.pc = 0xF0 + x → chip.memory (chip.pc + 1) = 0x33 →
      ((chip8_execute_next_instruction rnd chip).isSome = true ↔
        ∀ i, i < 3 → chip.I + i < 0x1000)) ∧
    (chip.memory chip.pc = 0xF0 + x → chip.memory (chip.pc + 1) = 0x55 →
      ((chip8_execute_next_instruction rnd chip).isSome = true ↔
        ∀ i, i ≤ x → chip.I + i < 0x1000)) ∧
    (chip.memory chip.pc = 0xF0 + x → chip.memory (chip.pc + 1) = 0x65 →
      ((chip8_execute_next_instruction rnd chip).isSome = true ↔
        ∀ i, i ≤ x → chip.I + i < 0x1000)) := by
  refine ⟨?_, ?_, ?_, ?_⟩
  · intro hhi hlo
    rw [step_decode rnd chip 0xD x y n (by omega) hx hy hn hhalt hpc (by omega) hlo]
    simp only [dispatch]
    exact draw_sprite_some_iff x y n { chip with pc := chip.pc + 2 }
  · intro hhi hlo
    rw [step_decode rnd chip 0xF x 3 3 (by omega) hx (by omega) (by omega) hhalt hpc
      (by omega) (by omega)]
    simp only [dispatch, misc]
    by_cases hI : chip.I + 2 < 0x1000
    · simp only [hI, if_true, Option.isSome_some, true_iff]
      intro i hi
      omega
    · simp only [hI, if_false, Option.isSome_none, Bool.false_eq_true, false_iff]
      intro h
      exact hI (h 2 (by omega))
  · intro hhi hlo
    rw [step_decode rnd chip 0xF x 5 5 (by omega) hx (by omega) (by omega) hhalt hpc
      (by omega) (by omega)]
    simp only [dispatch, misc]
    rw [store_loop_some_iff (x + 1) { chip with pc := chip.pc + 2 }]
    exact ⟨fun h i hi => h i (by omega), fun h i hi => h i (by omega)⟩
  · intro hhi hlo
    rw [step_decode rnd chip 0xF x 6 5 (by omega) hx (by omega) (by omega) hhalt hpc
      (by omega) (by omega)]
    simp only [dispatch, misc]
    rw [load_loop_some_iff (x + 1) { chip with pc := chip.pc + 2 }]
    exact ⟨fun h i hi => h i (by omega), fun h i hi => h i (by omega)⟩

/-- Witness of C15: `D121` with `I = 0x202`, `F133`, `F255` and `F265` with
`I = 0x300`. -/
theorem memory_access_through_I_spec_witness :
    ((chip8_execute_next_instruction 0 example_draw).isSome = true ↔
        ∀ i, i < 1 → example_draw.I + i < 0x1000) ∧
    ((chip8_execute_next_instruction 0 example_bcd).isSome = true ↔
        ∀ i, i < 3 → example_bcd.I + i < 0x1000) ∧
    ((chip8_execute_next_instruction 0 example_store).isSome = true ↔
        ∀ i, i ≤ 2 → example_store.I + i < 0x1000) ∧
    ((chip8_execute_next_instruction 0 example_load).isSome = true ↔
        ∀ i, i ≤ 2 → example_load.I + i < 0x1000) :=
  ⟨(memory_access_through_I_spec 0 example_draw 1 2 1 (by decide) (by decide) (by decide) rfl
      (by decide)).1 rfl rfl,
   (memory_access_through_I_spec 0 example_bcd 1 0 0 (by decide) (by decide) (by decide) rfl
      (by decide)).2.1 rfl rfl,
   (memory_access_through_I_spec 0 example_store 2 0 0 (by decide) (by decide) (by decide) rfl
      (by decide)).2.2.1 rfl rfl,
   (memory_access_through_I_spec 0 example_load 2 0 0 (by decide) (by decide) (by decide) rfl
      (by decide)).2.2.2 rfl rfl⟩

/-! ## Program counter (C16) -/

/-- C16, counterexample: from the initial state in standard mode (`L = 0x200`),
the jump `1201` leaves `pc = 0x201`, so `pc - L` is odd; the jump `1001`
leaves `pc = 1`, below `L`; and the jump `1FFE` followed by the opcode at
0xFFE leaves `pc = 0x1000`. -/
theorem pc_leaves_program_range :
    (∃ c0 c1, chip8_init (machine_with []) (fun _ => 0) (fun _ => 0) [0x12, 0x01] false = some c0 ∧
      c0.pc = 0x200 ∧ chip8_execute_next_instruction 0 c0 = some c1 ∧
      c1.pc = 0x201 ∧ (c1.pc - 0x200) % 2 = 1) ∧
    (∃ c0 c1, chip8_init (machine_with []) (fun _ => 0) (fun _ => 0) [0x10, 0x01] false = some c0 ∧
      chip8_execute_next_instruction 0 c0 = some c1 ∧ c1.pc = 1 ∧ ¬ 0x200 ≤ c1.pc) ∧
    (∃ c0 c1, chip8_init (machine_with []) (fun _ => 0) (fun _ => 0) [0x1F, 0xFE, 0x60, 0x00]
        false = some c0 ∧
      chip8_run [0, 0] c0 = some c1 ∧ c1.pc = 0x1000 ∧ ¬ c1.pc < 0x1000) :=
  ⟨⟨_, _, rfl, rfl, rfl, rfl, rfl⟩, ⟨_, _, rfl, rfl, rfl, by decide⟩,
    ⟨_, _, rfl, rfl, rfl, by decide⟩⟩

/-- C16, amended (`pc` moves by 2 or 4 outside jumps, calls and returns): in a
machine that is not waiting, a step that succeeds on an opcode other than a
jump 1nnn, a call 2nnn, a jump with offset Bnnn and a return 00EE leaves
`pc + 2` in `pc`, or `pc + 4` (a skip that is taken); so if `pc` was at or
above a load address `L` with `pc - L` even, it still is.  A timer tick and a
key event leave `pc` as it was, and `chip8_init` leaves the load address in
`pc`. -/
theorem pc_step_spec (rnd : Nat) (chip c' : chip8) (fam x y n : Nat)
    (hf : fam < 16) (hx : x < 16) (hy : y < 16) (hn : n < 16)
    (hhalt : chip.halt_reg = 0) (hpc : chip.pc + 1 < 0x1000)
    (hhi : chip.memory chip.pc = 16 * fam + x) (hlo : chip.memory (chip.pc + 1) = 16 * y + n)
    (hjump : fam ≠ 0x1 ∧ fam ≠ 0x2 ∧ fam ≠ 0xB)
    (hret : ¬ (fam = 0x0 ∧ x = 0x0 ∧ y = 0xE ∧ n = 0xE))
    (hstep : chip8_execute_next_instruction rnd chip = some c') :
    (c'.pc = chip.pc + 2 ∨ c'.pc = chip.pc + 4) ∧
    (∀ L, L ≤ chip.pc → (chip.pc - L) % 2 = 0 → L ≤ c'.pc ∧ (c'.pc - L) % 2 = 0) ∧
    (chip8_update_timers chip).pc = chip.pc ∧
    (∀ k is_down c1, key_event k is_down chip = some c1 → c1.pc = chip.pc) ∧
    (∀ c new_memory new_display rom_data eti660 c0,
      chip8_init c new_memory new_display rom_data eti660 = some c0 →
      c0.pc = if eti660 = true then 0x660 else 0x200) := by
  have hmain : c'.pc = chip.pc + 2 ∨ c'.pc = chip.pc + 4 := by
    rw [step_decode rnd chip fam x y n hf hx hy hn hhalt hpc hhi hlo] at hstep
    have h4 : (chip.pc + 2 + 2) % 0x10000 = chip.pc + 4 := by omega
    obtain ⟨h1, h2, hB⟩ := hjump
    interval_cases fam
    · have hnnn : 256 * x + 16 * y + n ≠ 0x0EE := by
        intro h
        apply hret
        refine ⟨rfl, ?_, ?_, ?_⟩ <;> omega
      simp only [dispatch] at hstep
      split at hstep
      · simp only [Option.some.injEq] at hstep; rw [← hstep]; exact Or.inl rfl
      · exact absurd (by assumption) hnnn
      · simp only [Option.some.injEq] at hstep; rw [← hstep]; exact Or.inl rfl
    · exact absurd rfl h1
    · exact absurd rfl h2
    · simp only [dispatch, Option.some.injEq, h4] at hstep
      rw [← hstep]; split <;> simp
    · simp only [dispatch, Option.some.injEq, h4] at hstep
      rw [← hstep]; split <;> simp
    · simp only [dispatch, Option.some.injEq, h4] at hstep
      rw [← hstep]; split <;> simp
    · simp only [dispatch, Option.some.injEq] at hstep
      rw [← hstep]; exact Or.inl rfl
    · simp only [dispatch, Option.some.injEq] at hstep
      rw [← hstep]; exact Or.inl rfl
    · simp only [dispatch, Option.some.injEq] at hstep
      rw [← hstep, alu_pc]; exact Or.inl rfl
    · simp only [dispatch, Option.some.injEq, h4] at hstep
      rw [← hstep]; split <;> simp
    · simp only [dispatch, Option.some.injEq] at hstep
      rw [← hstep]; exact Or.inl rfl
    · exact absurd rfl hB
    · simp only [dispatch, Option.some.injEq] at hstep
      rw [← hstep]; exact Or.inl rfl
    · simp only [dispatch] at hstep
      rw [draw_sprite_pc _ _ _ _ _ hstep]; exact Or.inl rfl
    · simp only [dispatch, h4] at hstep
      split at hstep
      · split at hstep
        · simp only [Option.some.injEq] at hstep
          rw [← hstep]; split <;> simp
        · cases hstep
      · split at hstep
        · simp only [Option.some.injEq] at hstep
          rw [← hstep]; split <;> simp
        · cases hstep
      · simp only [Option.some.injEq] at hstep; rw [← hstep]; exact Or.inl rfl
    · simp only [dispatch] at hstep
      rw [misc_pc _ _ _ _ hstep]; exact Or.inl rfl
  refine ⟨hmain, ?_, ?_, ?_, ?_⟩
  · intro L hL hev
    omega
  · unfold chip8_update_timers
    simp only
    split <;> split <;> try split
    all_goals rfl
  · intro k d c1 h
    unfold key_event at h
    simp only at h
    split at h
    · split at h
      · split at h
        · simp only [Option.some.injEq] at h; rw [← h]
        · cases h
      · simp only [Option.some.injEq] at h; rw [← h]
    · simp only [Option.some.injEq] at h; rw [← h]
  · intro c nm nd rom e c0 h
    unfold chip8_init at h
    cases e
    all_goals
      simp only [Bool.false_eq_true, if_false, if_true] at h
      split at h
      · simp only [Option.some.injEq] at h
        rw [← h]
        rfl
      · cases h

/-- Witness of C16: the skip `3000` with `V0 = 0`, from `pc = 0x200`. -/
theorem pc_step_spec_witness :
    (({ example_skip with pc := 0x204 } : chip8).pc = example_skip.pc + 2 ∨
      ({ example_skip with pc := 0x204 } : chip8).pc = example_skip.pc + 4) ∧
    (∀ L, L ≤ example_skip.pc → (example_skip.pc - L) % 2 = 0 →
      L ≤ ({ example_skip with pc := 0x204 } : chip8).pc ∧
      (({ example_skip with pc := 0x204 } : chip8).pc - L) % 2 = 0) ∧
    (chip8_update_timers example_skip).pc = example_skip.pc ∧
    (∀ k is_down c1, key_event k is_down example_skip = some c1 → c1.pc = example_skip.pc) ∧
    (∀ c new_memory new_display rom_data eti660 c0,
      chip8_init c new_memory new_display rom_data eti660 = some c0 →
      c0.pc = if eti660 = true then 0x660 else 0x200) :=
  pc_step_spec 0 example_skip { example_skip with pc := 0x204 } 3 0 0 0 (by decide) (by decide)
    (by decide) (by decide) rfl (by decide) rfl rfl (by decide) (by decide) rfl

/-! ## Decimal digits (C17) -/

/-- C17 (bcd, opcode Fx33): in a machine that is not waiting, for every register
index `x`, every byte `v` in `Vx` and every `I` with `I + 2 < 0x1000`, the step
succeeds and the bytes `h = memory[I]`, `t = memory[I + 1]`,
`o = memory[I + 2]` satisfy `h <= 2`, `t <= 9`, `o <= 9` and
`100 * h + 10 * t + o = v`; every other memory byte, every register and `I`
are unchanged. -/
theorem bcd_spec (rnd : Nat) (chip : chip8) (x v : Nat) (hx : x < 16)
    (hhalt : chip.halt_reg = 0) (hpc : chip.pc + 1 < 0x1000)
    (hhi : chip.memory chip.pc = 0xF0 + x) (hlo : chip.memory (chip.pc + 1) = 0x33)
    (hv : chip.V x = v) (hv8 : v < 256) (hI : chip.I + 2 < 0x1000) :
    ∃ chip', chip8_execute_next_instruction rnd chip = some chip' ∧
      chip'.memory chip.I ≤ 2 ∧ chip'.memory (chip.I + 1) ≤ 9 ∧ chip'.memory (chip.I + 2) ≤ 9 ∧
      100 * chip'.memory chip.I + 10 * chip'.memory (chip.I + 1) + chip'.memory (chip.I + 2) = v ∧
      (∀ a, a ≠ chip.I → a ≠ chip.I + 1 → a ≠ chip.I + 2 → chip'.memory a = chip.memory a) ∧
      chip'.V = chip.V ∧ chip'.I = chip.I := by
  rw [step_decode rnd chip 0xF x 3 3 (by omega) hx (by omega) (by omega) hhalt hpc
    (by omega) (by omega)]
  have h0 : chip.I ≠ chip.I + 1 := by omega
  have h1 : chip.I ≠ chip.I + 2 := by omega
  have h2 : chip.I + 1 ≠ chip.I + 2 := by omega
  have e : dispatch 0xF (256 * x + 16 * 3 + 3) (16 * 3 + 3) 3 x 3 rnd
      { chip with pc := chip.pc + 2 } =
      some { chip with
        pc := chip.pc + 2,
        memory := upd (upd (upd chip.memory chip.I (v / 100)) (chip.I + 1) (v / 10 % 10))
          (chip.I + 2) (v % 10) } := by
    have hm : v / 100 % 256 = v / 100 := by omega
    simp [dispatch, misc, hI, hv, hm]
  refine ⟨_, e, ?_, ?_, ?_, ?_, ?_, rfl, rfl⟩
  · simp only [upd_ne h0, upd_ne h1, upd_same]; omega
  · simp only [upd_ne h2, upd_same]; omega
  · simp only [upd_same]; omega
  · simp only [upd_ne h0, upd_ne h1, upd_ne h2, upd_same]; omega
  · intro a a0 a1 a2
    simp only [upd_ne a0, upd_ne a1, upd_ne a2]

/-- Witness of C17: the digits 2, 5, 4 of `V1 = 254` at 0x300. -/
theorem bcd_spec_witness :
    ∃ chip', chip8_execute_next_instruction 0 example_bcd = some chip' ∧
      chip'.memory example_bcd.I ≤ 2 ∧ chip'.memory (example_bcd.I + 1) ≤ 9 ∧
      chip'.memory (example_bcd.I + 2) ≤ 9 ∧
      100 * chip'.memory example_bcd.I + 10 * chip'.memory (example_bcd.I + 1) +
        chip'.memory (example_bcd.I + 2) = 254 ∧
      (∀ a, a ≠ example_bcd.I → a ≠ example_bcd.I + 1 → a ≠ example_bcd.I + 2 →
        chip'.memory a = example_bcd.memory a) ∧
      chip'.V = example_bcd.V ∧ chip'.I = example_bcd.I :=
  bcd_spec 0 example_bcd 1 254 (by decide) rfl (by decide) rfl rfl rfl (by decide) (by decide)

/-! ## Font address (C18) -/

/-- C18, counterexample: the program `6010 F029` run from the initial state
(font table in memory) leaves `V0 = 16` and `I = 80`, not
`5 * (16 mod 16) = 0`; `memory[80]` is 0, not the first row `0xF0` of the
glyph of the digit 0. -/
theorem font_addr_v16 :
    ∃ c0 c2, chip8_init (machine_with []) (fun _ => 0) (fun _ => 0) [0x60, 0x10, 0xF0, 0x29]
        false = some c0 ∧
      chip8_run [0, 0] c0 = some c2 ∧ c2.V 0 = 16 ∧ c2.I = 80 ∧ c2.I ≠ 5 * (16 % 16) ∧
      c2.memory c2.I = 0 ∧ chip8_font.getD (5 * (16 % 16)) 0 = 0xF0 :=
  ⟨_, _, rfl, rfl, rfl, rfl, by decide, rfl, rfl⟩

/-- C18, amended (font address, opcode Fx29): in a machine that is not waiting
whose memory holds the font table, for every byte `v` in `Vx` the step
succeeds, leaves `I = 5 * v` (the low nibble is not extracted) and does not
change the memory; when `v` is in 0..15, `I = 5 * (v mod 16)` and
`memory[I..I+4]` are the five rows of the glyph of the digit `v`. -/
theorem font_addr_spec (rnd : Nat) (chip : chip8) (x v : Nat) (hx : x < 16)
    (hhalt : chip.halt_reg = 0) (hpc : chip.pc + 1 < 0x1000)
    (hhi : chip.memory chip.pc = 0xF0 + x) (hlo : chip.memory (chip.pc + 1) = 0x29)
    (hv : chip.V x = v) (hv8 : v < 256)
    (hfont : ∀ a, a < 80 → chip.memory a = chip8_font.getD a 0) :
    ∃ chip', chip8_execute_next_instruction rnd chip = some chip' ∧
      chip'.I = 5 * v ∧ chip'.memory = chip.memory ∧
      (v < 16 → chip'.I = 5 * (v % 16) ∧
        ∀ k, k < 5 → chip'.memory (chip'.I + k) = chip8_font.getD (5 * (v % 16) + k) 0) := by
  rw [step_decode rnd chip 0xF x 2 9 (by omega) hx (by omega) (by omega) hhalt hpc
    (by omega) (by omega)]
  have e : dispatch 0xF (256 * x + 16 * 2 + 9) (16 * 2 + 9) 9 x 2 rnd
      { chip with pc := chip.pc + 2 } = some { chip with pc := chip.pc + 2, I := 5 * v } := by
    have hm : v * 5 % 65536 = 5 * v := by omega
    simp [dispatch, misc, hv, hm]
  refine ⟨_, e, rfl, rfl, ?_⟩
  intro hv16
  have hmod : v % 16 = v := by omega
  refine ⟨by simp only [hmod], ?_⟩
  intro k hk
  simp only [hmod]
  exact hfont _ (by omega)

/-- Witness of C18: `V0 = 7` gives `I = 35`, the address of the glyph of 7. -/
theorem font_addr_spec_witness :
    ∃ chip', chip8_execute_next_instruction 0 example_font = some chip' ∧
      chip'.I = 5 * 7 ∧ chip'.memory = example_font.memory ∧
      (7 < 16 → chip'.I = 5 * (7 % 16) ∧
        ∀ k, k < 5 → chip'.memory (chip'.I + k) = chip8_font.getD (5 * (7 % 16) + k) 0) :=
  font_addr_spec 0 example_font 0 7 (by decide) rfl (by decide) rfl rfl rfl (by decide)
    (fun a ha => if_pos ha)

/-! ## Store and load (C19) -/

/-- C19 (store/load round trip, opcodes Fx55 and Fx65): in a machine that is not
waiting, for every `x` in 0..15 and every `I` with `I + x < 0x1000`, the step
on Fx55 succeeds, writes `memory[I + i] = V[i]` for every `i <= x` and leaves
the other memory bytes, the registers and `I` unchanged; and in every later
state with that memory and that `I`, whatever its registers hold, the step on
Fx65 succeeds, gives back to `V[i]`, for every `i <= x`, the value it had when
Fx55 ran, and leaves the registers above `x`, the memory and `I` unchanged. -/
theorem store_load_round_trip (r1 r2 : Nat) (chip : chip8) (x : Nat) (hx : x < 16)
    (hhalt : chip.halt_reg = 0) (hpc : chip.pc + 1 < 0x1000)
    (hhi : chip.memory chip.pc = 0xF0 + x) (hlo : chip.memory (chip.pc + 1) = 0x55)
    (hI : chip.I + x < 0x1000) :
    ∃ c1, chip8_execute_next_instruction r1 chip = some c1 ∧
      (∀ i, i ≤ x → c1.memory (chip.I + i) = chip.V i) ∧
      (∀ a, (a < chip.I ∨ chip.I + x < a) → c1.memory a = chip.memory a) ∧
      c1.V = chip.V ∧ c1.I = chip.I ∧
      ∀ c2 : chip8, c2.memory = c1.memory → c2.I = c1.I → c2.halt_reg = 0 →
        c2.pc + 1 < 0x1000 → c2.memory c2.pc = 0xF0 + x → c2.memory (c2.pc + 1) = 0x65 →
        ∃ c3, chip8_execute_next_instruction r2 c2 = some c3 ∧
          (∀ i, i ≤ x → c3.V i = chip.V i) ∧ (∀ r, x < r → c3.V r = c2.V r) ∧
          c3.memory = c2.memory ∧ c3.I = c2.I := by
  have e1 : chip8_execute_next_instruction r1 chip =
      some { chip with
        pc := chip.pc + 2,
        memory := fun a =>
          if chip.I ≤ a ∧ a < chip.I + (x + 1) then chip.V (a - chip.I) else chip.memory a } := by
    rw [step_decode r1 chip 0xF x 5 5 (by omega) hx (by omega) (by omega) hhalt hpc
      (by omega) (by omega)]
    simp only [dispatch, misc]
    exact store_loop_eq { chip with pc := chip.pc + 2 } (x + 1) (by simpa using hI)
  refine ⟨_, e1, ?_, ?_, rfl, rfl, ?_⟩
  · intro i hi
    have h1 : chip.I ≤ chip.I + i ∧ chip.I + i < chip.I + (x + 1) := by omega
    simp only [h1, and_self, if_true, Nat.add_sub_cancel_left]
  · intro a ha
    have h1 : ¬ (chip.I ≤ a ∧ a < chip.I + (x + 1)) := by omega
    simp only [h1, if_false]
  · intro c2 hm2 hI2 hh2 hpc2 hhi2 hlo2
    simp only at hm2 hI2
    have e2 : chip8_execute_next_instruction r2 c2 =
        some { c2 with
          pc := c2.pc + 2,
          V := fun r => if r < x + 1 then c2.memory (c2.I + r) else c2.V r } := by
      rw [step_decode r2 c2 0xF x 6 5 (by omega) hx (by omega) (by omega) hh2 hpc2
        (by omega) (by omega)]
      simp only [dispatch, misc]
      exact load_loop_eq { c2 with pc := c2.pc + 2 } (x + 1) (by simp only; omega)
    refine ⟨_, e2, ?_, ?_, rfl, rfl⟩
    · intro i hi
      have h0 : i < x + 1 := by omega
      have h1 : chip.I ≤ chip.I + i ∧ chip.I + i < chip.I + (x + 1) := by omega
      simp only [h0, if_true, hm2, hI2, h1, and_self, Nat.add_sub_cancel_left]
    · intro r hr
      have h0 : ¬ r < x + 1 := by omega
      simp only [h0, if_false]

/-- Witness of C19: `F255` with `V0, V1, V2 = 1, 2, 3` and `I = 0x300`. -/
theorem store_load_round_trip_witness :
    ∃ c1, chip8_execute_next_instruction 0 example_store = some c1 ∧
      (∀ i, i ≤ 2 → c1.memory (example_store.I + i) = example_store.V i) ∧
      (∀ a, (a < example_store.I ∨ example_store.I + 2 < a) →
        c1.memory a = example_store.memory a) ∧
      c1.V = example_store.V ∧ c1.I = example_store.I ∧
      ∀ c2 : chip8, c2.memory = c1.memory → c2.I = c1.I → c2.halt_reg = 0 →
        c2.pc + 1 < 0x1000 → c2.memory c2.pc = 0xF0 + 2 → c2.memory (c2.pc + 1) = 0x65 →
        ∃ c3, chip8_execute_next_instruction 0 c2 = some c3 ∧
          (∀ i, i ≤ 2 → c3.V i = example_store.V i) ∧ (∀ r, 2 < r → c3.V r = c2.V r) ∧
          c3.memory = c2.memory ∧ c3.I = c2.I :=
  store_load_round_trip 0 0 example_store 2 (by decide) rfl (by decide) rfl rfl (by decide)

/-! ## The flag register as an operand (C20) -/

/-- C20, counterexample: with `V1 = 1` and `VF = 2`, the opcode `81F4` leaves
`V1 = 1`, not `(1 + 2) mod 256 = 3`: the flag (0, no carry) is written to
`VF` before `VF` is read as the second operand. -/
theorem add_vf_reads_new_flag :
    ∃ c1, chip8_execute_next_instruction 0 example_add_vf = some c1 ∧
      example_add_vf.V 1 = 1 ∧ example_add_vf.V 0xF = 2 ∧ c1.V 1 = 1 ∧
      c1.V 1 ≠ (1 + 2) % 256 :=
  ⟨_, rfl, rfl, rfl, rfl, by decide⟩

/-- C20, amended (the flag is written before the operands of the result are
read): in a machine that is not waiting, with `x` different from 0xF,
`y = 0xF`, `Vx = a` and `VF = b` (two bytes): 8xF4 leaves in `VF` the carry
`c` of `a + b` and in `Vx` the value `(a + c) mod 256`; 8xF5 leaves in `VF`
the flag `c = (a > b)` and in `Vx` the value `(a - c) mod 256`; 8xF7 leaves in
`VF` the flag `c = (b > a)` and in `Vx` the value `(c - a) mod 256`. -/
theorem flag_first_spec (rnd : Nat) (chip : chip8) (x n a b : Nat)
    (hx : x < 15) (hn : n = 0x4 ∨ n = 0x5 ∨ n = 0x7)
    (hhalt : chip.halt_reg = 0) (hpc : chip.pc + 1 < 0x1000)
    (hhi : chip.memory chip.pc = 0x80 + x) (hlo : chip.memory (chip.pc + 1) = 0xF0 + n)
    (ha : chip.V x = a) (hb : chip.V 0xF = b) (ha8 : a < 256) (hb8 : b < 256) :
    ∃ chip', chip8_execute_next_instruction rnd chip = some chip' ∧
      (n = 0x4 → chip'.V 0xF = (if a + b > 255 then 1 else 0) ∧
        chip'.V x = (a + (if a + b > 255 then 1 else 0)) % 256) ∧
      (n = 0x5 → chip'.V 0xF = (if a > b then 1 else 0) ∧
        (chip'.V x : Int) = ((a : Int) - (if a > b then 1 else 0)) % 256) ∧
      (n = 0x7 → chip'.V 0xF = (if b > a then 1 else 0) ∧
        (chip'.V x : Int) = ((if b > a then 1 else 0) - (a : Int)) % 256) := by
  have hFx : (0xF : Nat) ≠ x := by omega
  have hxF : x ≠ 0xF := by omega
  rcases hn with hn | hn | hn <;> subst hn
  · rw [step_decode rnd chip 8 x 0xF 4 (by omega) (by omega) (by omega) (by omega) hhalt hpc
      (by omega) (by omega)]
    refine ⟨_, rfl, ?_, ?_, ?_⟩
    · intro _
      constructor
      · simp only [alu, upd_ne hFx, upd_same, ha, hb, Nat.shiftRight_eq_div_pow]
        split <;> omega
      · simp only [alu, upd_ne hxF, upd_same, ha, hb, Nat.shiftRight_eq_div_pow]
        split <;> omega
    · intro h; omega
    · intro h; omega
  · rw [step_decode rnd chip 8 x 0xF 5 (by omega) (by omega) (by omega) (by omega) hhalt hpc
      (by omega) (by omega)]
    refine ⟨_, rfl, ?_, ?_, ?_⟩
    · intro h; omega
    · intro _
      constructor
      · simp only [alu, upd_ne hFx, upd_same, ha, hb]
      · simp only [alu, upd_ne hxF, upd_same, ha, hb, sub8]
        split <;> omega
    · intro h; omega
  · rw [step_decode rnd chip 8 x 0xF 7 (by omega) (by omega) (by omega) (by omega) hhalt hpc
      (by omega) (by omega)]
    refine ⟨_, rfl, ?_, ?_, ?_⟩
    · intro h; omega
    · intro h; omega
    · intro _
      constructor
      · simp only [alu, upd_ne hFx, upd_same, ha, hb]
      · simp only [alu, upd_ne hxF, upd_same, ha, hb, sub8]
        split <;> omega

/-- Witness of C20: `81F4` with `V1 = 200`, `VF = 100`; `81F5` and `81F7` with
`V1 = 9`, `VF = 4`. -/
theorem flag_first_spec_witness :
    (∃ chip', chip8_execute_next_instruction 0 example_add_vf_carry = some chip' ∧
      chip'.V 0xF = (if 200 + 100 > 255 then 1 else 0) ∧
      chip'.V 1 = (200 + (if 200 + 100 > 255 then 1 else 0)) % 256) ∧
    (∃ chip', chip8_execute_next_instruction 0 example_sub_vf = some chip' ∧
      chip'.V 0xF = (if 9 > 4 then 1 else 0) ∧
      (chip'.V 1 : Int) = (((9 : Nat) : Int) - (if 9 > 4 then 1 else 0)) % 256) ∧
    (∃ chip', chip8_execute_next_instruction 0 example_subn_vf = some chip' ∧
      chip'.V 0xF = (if 4 > 9 then 1 else 0) ∧
      (chip'.V 1 : Int) = ((if 4 > 9 then 1 else 0) - ((9 : Nat) : Int)) % 256) := by
  obtain ⟨c4, e4, h4, -, -⟩ := flag_first_spec 0 example_add_vf_carry 1 4 200 100 (by decide)
    (Or.inl rfl) rfl (by decide) rfl rfl rfl rfl (by decide) (by decide)
  obtain ⟨c5, e5, -, h5, -⟩ := flag_first_spec 0 example_sub_vf 1 5 9 4 (by decide)
    (Or.inr (Or.inl rfl)) rfl (by decide) rfl rfl rfl rfl (by decide) (by decide)
  obtain ⟨c7, e7, -, -, h7⟩ := flag_first_spec 0 example_subn_vf 1 7 9 4 (by decide)
    (Or.inr (Or.inr rfl)) rfl (by decide) rfl rfl rfl rfl (by decide) (by decide)
  exact ⟨⟨c4, e4, h4 rfl⟩, ⟨c5, e5, h5 rfl⟩, ⟨c7, e7, h7 rfl⟩⟩
